import Mathlib

/-!
Verification of the bw_projects / brightway_projects project-registry library.

Strings are modelled as `List Char` (`Str`), filesystem paths as lists of
path segments (`FsPath`), and the filesystem as the finite set of directories
that currently exist (`Finset FsPath`).  Python functions that can raise are
modelled as functions returning the mutated state together with an optional
error, reflecting that a Python exception propagates after the mutations made
before the `raise` have already happened.
-/

abbrev Str := List Char

abbrev FsPath := List Str

/-- The exception classes that the modelled code can raise. -/
inductive PyErr where
  | projectExistsError
  | doesNotExist
  | attributeError
  | fileExistsError
  | fileNotFoundError
  | noActiveProject
  | valueError
  | assertionError
  | integrityError
deriving DecidableEq, Repr

/-! ### The name → segment mapping

`bw_projects` turns a raw project name into a directory segment with
`slugify` (the `python-slugify` dependency, no hash suffix);
`brightway_projects` uses `safe_filename` (unicode normalisation plus an
8-hex-character md5 suffix of the raw name).
-/

/-- One character of `python-slugify`'s disallowed-characters substitution:
alphanumeric characters are kept, every other character becomes the
separator `'-'`.  Models `DISALLOWED_CHARS_PATTERN` of the `python-slugify`
dependency on its ASCII fragment (the transliteration step of the library is
the identity on ASCII input). -/
def slugSub (c : Char) : Char := if c.isAlphanum then c else '-'

/-- Collapse maximal runs of `'-'` to a single `'-'`; the flag records
whether the previous emitted position belongs to a hyphen run.  Models
`DUPLICATE_DASH_PATTERN` substitution of `python-slugify` (together with the
run semantics of `[^-a-zA-Z0-9]+`). -/
def collapseDash : Bool → Str → Str
  | _, [] => []
  | prev, c :: rest =>
    if c = '-' then
      if prev then collapseDash true rest else '-' :: collapseDash true rest
    else c :: collapseDash false rest

/-- `text.strip('-')` on the left. -/
def dropLeadDash (s : Str) : Str := s.dropWhile (fun c => c = '-')

/-- `text.strip('-')`: strip hyphens from both ends. -/
def stripDash (s : Str) : Str :=
  ((dropLeadDash s).reverse.dropWhile (fun c => c = '-')).reverse

/-- Model of `slugify` from the `python-slugify` dependency (ASCII fragment):
lowercase, replace every run of characters outside `[-a-zA-Z0-9]` by `'-'`,
collapse duplicate hyphens, strip hyphens from both ends. -/
def slugify (s : Str) : Str :=
  stripDash (collapseDash false ((s.map Char.toLower).map slugSub))

/-- `ProjectsManager.get_clean_project_name` (src/bw_projects/core.py, lines
80-83): `return slugify(name)`.  No hash of the raw name is appended. -/
def get_clean_project_name (name : Str) : Str := slugify name

/-- ASCII fragment of Python's `re` word character class `\w`. -/
def isWordChar (c : Char) : Bool := c.isAlphanum || c = '_'

/-- ASCII fragment of Python's `re` whitespace class `\s` / `str.strip()`. -/
def isPySpace (c : Char) : Bool :=
  c = ' ' || c = '\t' || c = '\n' || c = '\r' || c = '\x0b' || c = '\x0c'

/-- A character matched by `re.compile(r"[-\s]+")`. -/
def isDashOrSpace (c : Char) : Bool := c = '-' || isPySpace c

/-- `re_slugify.sub("", ·)` with `re_slugify = re.compile(r"[^\w\s-]")`
(src/brightway_projects/filesystem.py line 10): keep only word characters,
whitespace and hyphens. -/
def keepWordSpaceDash (s : Str) : Str :=
  s.filter (fun c => isWordChar c || isPySpace c || c = '-')

/-- Python `str.strip()`: remove whitespace from both ends. -/
def pyStrip (s : Str) : Str :=
  ((s.dropWhile isPySpace).reverse.dropWhile isPySpace).reverse

/-- `re.sub(r"[-\s]+", "-", ·)`: every maximal run of hyphens/whitespace
becomes a single `'-'`. -/
def collapseDashSpace : Bool → Str → Str
  | _, [] => []
  | prev, c :: rest =>
    if isDashOrSpace c then
      if prev then collapseDashSpace true rest
      else '-' :: collapseDashSpace true rest
    else c :: collapseDashSpace false rest

/-- The normalisation part of `safe_filename`
(src/brightway_projects/filesystem.py lines 20-24), parameterised by the
`unicodedata.normalize("NFKD", ·)` dependency `nfkd`. -/
def safeFilenameBase (nfkd : Str → Str) (s : Str) : Str :=
  collapseDashSpace false (pyStrip (keepWordSpaceDash (nfkd s)))

/-- `safe_filename` (src/brightway_projects/filesystem.py lines 15-29),
parameterised by the `nfkd` normalisation and by the
`hashlib.md5(·).hexdigest()` dependency `md5hex` (a 32-hex-character digest
of the raw name).  With `add_hash` the first 8 digest characters of the
*original* raw string are appended after a literal `'.'`. -/
def safe_filename (nfkd md5hex : Str → Str) (s : Str) (add_hash : Bool) : Str :=
  let safe := safeFilenameBase nfkd s
  if add_hash then safe ++ '.' :: (md5hex s).take 8 else safe

/-! ### Helper lemmas about the mapping -/

theorem append_eq_append_of_length_eq {α : Type} {a b s t : List α}
    (h : a ++ s = b ++ t) (hl : s.length = t.length) : s = t := by
  have hlen : a.length = b.length := by
    have := congrArg List.length h
    simp only [List.length_append] at this
    omega
  exact (List.append_inj h hlen).2

theorem mem_collapseDashSpace {c : Char} :
    ∀ (b : Bool) (s : Str), c ∈ collapseDashSpace b s →
      c = '-' ∨ (c ∈ s ∧ isDashOrSpace c = false) := by
  intro b s
  induction s generalizing b with
  | nil => intro h; simp [collapseDashSpace] at h
  | cons d rest ih =>
    intro h
    simp only [collapseDashSpace] at h
    by_cases hd : isDashOrSpace d = true
    · rw [if_pos hd] at h
      cases hb : b
      · subst hb
        rw [if_neg (by decide)] at h
        rcases List.mem_cons.mp h with h1 | h2
        · exact Or.inl h1
        · rcases ih true h2 with h3 | ⟨h4, h5⟩
          · exact Or.inl h3
          · exact Or.inr ⟨List.mem_cons_of_mem _ h4, h5⟩
      · subst hb
        rw [if_pos rfl] at h
        rcases ih true h with h3 | ⟨h4, h5⟩
        · exact Or.inl h3
        · exact Or.inr ⟨List.mem_cons_of_mem _ h4, h5⟩
    · rw [if_neg hd] at h
      rcases List.mem_cons.mp h with h1 | h2
      · subst h1
        exact Or.inr ⟨List.mem_cons_self _ _, Bool.not_eq_true _ ▸ hd⟩
      · rcases ih false h2 with h3 | ⟨h4, h5⟩
        · exact Or.inl h3
        · exact Or.inr ⟨List.mem_cons_of_mem _ h4, h5⟩

theorem mem_pyStrip {c : Char} {s : Str} (h : c ∈ pyStrip s) : c ∈ s := by
  unfold pyStrip at h
  rw [List.mem_reverse] at h
  have h1 := (List.dropWhile_sublist (l := (s.dropWhile isPySpace).reverse)
    (p := isPySpace)).subset h
  rw [List.mem_reverse] at h1
  exact (List.dropWhile_sublist (l := s) (p := isPySpace)).subset h1

theorem mem_safeFilenameBase {c : Char} {nfkd : Str → Str} {s : Str}
    (h : c ∈ safeFilenameBase nfkd s) : isWordChar c = true ∨ c = '-' := by
  unfold safeFilenameBase at h
  rcases mem_collapseDashSpace false _ h with h1 | ⟨h2, h3⟩
  · exact Or.inr h1
  · have h4 := mem_pyStrip h2
    rw [keepWordSpaceDash, List.mem_filter] at h4
    have h5 := h4.2
    simp only [Bool.or_eq_true, decide_eq_true_eq] at h5
    simp only [isDashOrSpace, Bool.or_eq_false_iff, decide_eq_false_iff_not] at h3
    rcases h5 with (h6 | h6) | h6
    · exact Or.inl h6
    · rw [h3.2] at h6; exact absurd h6 (by decide)
    · exact absurd h6 h3.1

/-! ### Claim C1 -/

/-- Claim C1, counterexample.  The name-to-segment mapping of
`bw_projects` (`ProjectsManager.get_clean_project_name`, a bare `slugify`
call) appends no hash: the two distinct raw names `"Foo"` and `"foo"` are
mapped to the *same* segment `"foo"`, so the claimed injectivity
`map(n1) ≠ map(n2)` fails on the code. -/
theorem c1_counterexample :
    get_clean_project_name ['F', 'o', 'o'] = get_clean_project_name ['f', 'o', 'o'] ∧
      (['F', 'o', 'o'] : Str) ≠ ['f', 'o', 'o'] := by
  constructor
  · rfl
  · decide

/-- Claim C1, amended: only `safe_filename`
(src/brightway_projects/filesystem.py) appends a fixed-width hash of the raw
name, and there the hash suffix is the actual disambiguator: whenever the
8-hex-character digests of two raw names differ, the produced segments
differ, regardless of what unicode normalisation does to the names.  The
`bw_projects` mapping `get_clean_project_name` appends no hash and is not
injective (see the counterexample). -/
theorem c1_hash_suffix_disambiguates (nfkd md5hex : Str → Str)
    (hlen : ∀ t, (md5hex t).length = 32) (n1 n2 : Str)
    (hhash : (md5hex n1).take 8 ≠ (md5hex n2).take 8) :
    safe_filename nfkd md5hex n1 true ≠ safe_filename nfkd md5hex n2 true := by
  intro heq
  have h1 : safe_filename nfkd md5hex n1 true =
      safeFilenameBase nfkd n1 ++ '.' :: (md5hex n1).take 8 := rfl
  have h2 : safe_filename nfkd md5hex n2 true =
      safeFilenameBase nfkd n2 ++ '.' :: (md5hex n2).take 8 := rfl
  rw [h1, h2] at heq
  have hlen8 : ('.' :: (md5hex n1).take 8).length = ('.' :: (md5hex n2).take 8).length := by
    simp only [List.length_cons, List.length_take, hlen]
  have := append_eq_append_of_length_eq heq hlen8
  exact hhash (List.cons.injEq _ _ _ _ ▸ this |>.2)

/-- Witness for `c1_hash_suffix_disambiguates` at a concrete digest function
and concrete names. -/
theorem c1_hash_suffix_disambiguates_witness :
    safe_filename (fun t => t)
      (fun t => if t = ['a'] then List.replicate 32 '0' else List.replicate 32 '1')
      ['a'] true ≠
    safe_filename (fun t => t)
      (fun t => if t = ['a'] then List.replicate 32 '0' else List.replicate 32 '1')
      ['b'] true :=
  c1_hash_suffix_disambiguates (fun t => t)
    (fun t => if t = ['a'] then List.replicate 32 '0' else List.replicate 32 '1')
    (by intro t; by_cases h : t = ['a'] <;> simp [h])
    ['a'] ['b'] (by decide)

/-! ### Claim C3 -/

/-- Claim C3, counterexample.  For the all-punctuation raw name `"!!!"` the
`bw_projects` name-to-segment mapping returns the *empty* segment: `slugify`
strips everything and no hash suffix is appended, so the claimed non-empty
filesystem-legal fallback does not exist in this code path. -/
theorem c3_counterexample :
    get_clean_project_name ['!', '!', '!'] = [] := by rfl

/-- Claim C3, amended: `safe_filename` with `add_hash` (the
`brightway_projects` mapping) does return a non-empty filesystem-legal
segment for every raw name: the segment is the normalised name followed by
`'.'` and 8 digest characters, hence of length at least 9, every character
is a word character, `'-'` or `'.'`, and when normalisation strips
everything the segment degenerates to `'.'` followed by the hash alone.
The `bw_projects` mapping `get_clean_project_name` instead returns the empty
string on such names (see the counterexample). -/
theorem c3_safe_filename_nonempty (nfkd md5hex : Str → Str)
    (hlen : ∀ t, (md5hex t).length = 32)
    (hword : ∀ t c, c ∈ md5hex t → isWordChar c = true) (s : Str) :
    (safe_filename nfkd md5hex s true).length = (safeFilenameBase nfkd s).length + 9 ∧
    safe_filename nfkd md5hex s true ≠ [] ∧
    (safeFilenameBase nfkd s = [] →
      safe_filename nfkd md5hex s true = '.' :: (md5hex s).take 8) ∧
    (∀ c ∈ safe_filename nfkd md5hex s true,
      isWordChar c = true ∨ c = '-' ∨ c = '.') := by
  have hsf : safe_filename nfkd md5hex s true =
      safeFilenameBase nfkd s ++ '.' :: (md5hex s).take 8 := rfl
  refine ⟨?_, ?_, ?_, ?_⟩
  · rw [hsf]
    simp only [List.length_append, List.length_cons, List.length_take, hlen]
    omega
  · rw [hsf]
    intro h
    have := congrArg List.length h
    simp only [List.length_append, List.length_cons, List.length_nil] at this
    omega
  · intro hbase
    rw [hsf, hbase, List.nil_append]
  · intro c hc
    rw [hsf] at hc
    rcases List.mem_append.mp hc with h1 | h2
    · rcases mem_safeFilenameBase h1 with h3 | h3
      · exact Or.inl h3
      · exact Or.inr (Or.inl h3)
    · rcases List.mem_cons.mp h2 with h3 | h3
      · exact Or.inr (Or.inr h3)
      · exact Or.inl (hword s c ((List.take_sublist 8 _).subset h3))

/-- Witness for `c3_safe_filename_nonempty` at a concrete digest function and
a concrete all-punctuation name. -/
theorem c3_safe_filename_nonempty_witness :
    (safe_filename (fun t => t) (fun _ => List.replicate 32 '0') ['!'] true).length =
      (safeFilenameBase (fun t => t) ['!']).length + 9 ∧
    safe_filename (fun t => t) (fun _ => List.replicate 32 '0') ['!'] true ≠ [] ∧
    (safeFilenameBase (fun t => t) ['!'] = [] →
      safe_filename (fun t => t) (fun _ => List.replicate 32 '0') ['!'] true =
        '.' :: (List.replicate 32 '0').take 8) ∧
    (∀ c ∈ safe_filename (fun t => t) (fun _ => List.replicate 32 '0') ['!'] true,
      isWordChar c = true ∨ c = '-' ∨ c = '.') :=
  c3_safe_filename_nonempty (fun t => t) (fun _ => List.replicate 32 '0')
    (by intro t; simp) (by intro t c hc; simp at hc; simp [hc, isWordChar]) ['!']

/-! ### The serialized store (C6)

`SerializedDict` (src/bw2projects/serialization.py) serializes its data with
`JsonWrapper.dumps` / loads with `JsonWrapper.load` (the JSON codec
dependency), `PickledDict` with `pickle.dump` / `pickle.load`.  Both codecs
are modelled at the token level: one token per maximal lexeme of the
serialized text (lexing of both formats is unambiguous, so the token ↔ byte
correspondence is not modelled).  Values are the JSON-representable store
contents: null, booleans, integers, strings, arrays and string-keyed
objects.
-/

mutual
inductive JValue where
  | jnull : JValue
  | jbool : Bool → JValue
  | jint : Int → JValue
  | jstr : Str → JValue
  | jarr : JArr → JValue
  | jobj : JObj → JValue

inductive JArr where
  | anil : JArr
  | acons : JValue → JArr → JArr

inductive JObj where
  | onil : JObj
  | ocons : Str → JValue → JObj → JObj
end

/-- One lexeme of the serialized text. -/
inductive JTok where
  | tnull : JTok
  | tbool : Bool → JTok
  | tint : Int → JTok
  | tstr : Str → JTok
  | tarrO : JTok
  | tarrC : JTok
  | tobjO : JTok
  | tobjC : JTok
  | tkey : Str → JTok
deriving DecidableEq, Repr

mutual
/-- Serialize a value to its lexeme stream (model of `json.dumps`). -/
def flattenV : JValue → List JTok
  | .jnull => [.tnull]
  | .jbool b => [.tbool b]
  | .jint n => [.tint n]
  | .jstr s => [.tstr s]
  | .jarr es => .tarrO :: (flattenA es ++ [.tarrC])
  | .jobj fs => .tobjO :: (flattenO fs ++ [.tobjC])

def flattenA : JArr → List JTok
  | .anil => []
  | .acons v vs => flattenV v ++ flattenA vs

def flattenO : JObj → List JTok
  | .onil => []
  | .ocons k v fs => .tkey k :: (flattenV v ++ flattenO fs)
end

mutual
def sizeV : JValue → Nat
  | .jnull => 1
  | .jbool _ => 1
  | .jint _ => 1
  | .jstr _ => 1
  | .jarr es => sizeA es + 1
  | .jobj fs => sizeO fs + 1

def sizeA : JArr → Nat
  | .anil => 1
  | .acons v vs => sizeV v + sizeA vs

def sizeO : JObj → Nat
  | .onil => 1
  | .ocons _ v fs => sizeV v + sizeO fs
end

mutual
/-- Parse one value from a lexeme stream (model of `json.load`), with fuel. -/
def parseV : Nat → List JTok → Option (JValue × List JTok)
  | 0, _ => none
  | _ + 1, [] => none
  | fuel + 1, t :: ts =>
    match t with
    | .tnull => some (.jnull, ts)
    | .tbool b => some (.jbool b, ts)
    | .tint n => some (.jint n, ts)
    | .tstr s => some (.jstr s, ts)
    | .tarrO =>
      match parseA fuel ts with
      | some (es, ts') => some (.jarr es, ts')
      | none => none
    | .tobjO =>
      match parseO fuel ts with
      | some (fs, ts') => some (.jobj fs, ts')
      | none => none
    | _ => none

def parseA : Nat → List JTok → Option (JArr × List JTok)
  | 0, _ => none
  | _ + 1, [] => none
  | fuel + 1, t :: ts =>
    match t with
    | .tarrC => some (.anil, ts)
    | _ =>
      match parseV fuel (t :: ts) with
      | some (v, ts1) =>
        match parseA fuel ts1 with
        | some (vs, ts2) => some (.acons v vs, ts2)
        | none => none
      | none => none

def parseO : Nat → List JTok → Option (JObj × List JTok)
  | 0, _ => none
  | _ + 1, [] => none
  | fuel + 1, t :: ts =>
    match t with
    | .tobjC => some (.onil, ts)
    | .tkey k =>
      match parseV fuel ts with
      | some (v, ts1) =>
        match parseO fuel ts1 with
        | some (fs, ts2) => some (.ocons k v fs, ts2)
        | none => none
      | none => none
    | _ => none
end

mutual
theorem sizeV_pos : ∀ v : JValue, 1 ≤ sizeV v
  | .jnull => le_refl 1
  | .jbool _ => le_refl 1
  | .jint _ => le_refl 1
  | .jstr _ => le_refl 1
  | .jarr es => by simp [sizeV]
  | .jobj fs => by simp [sizeV]

theorem sizeA_pos : ∀ es : JArr, 1 ≤ sizeA es
  | .anil => le_refl 1
  | .acons v vs => by
    have := sizeA_pos vs
    simp only [sizeA]
    omega

theorem sizeO_pos : ∀ fs : JObj, 1 ≤ sizeO fs
  | .onil => le_refl 1
  | .ocons _ v fs => by
    have := sizeO_pos fs
    simp only [sizeO]
    omega
end

mutual
theorem sizeV_le_flatten : ∀ v : JValue, sizeV v ≤ (flattenV v).length
  | .jnull => le_refl 1
  | .jbool _ => le_refl 1
  | .jint _ => le_refl 1
  | .jstr _ => le_refl 1
  | .jarr es => by
    have := sizeA_le_flatten es
    simp only [sizeV, flattenV, List.length_cons, List.length_append, List.length_singleton]
    omega
  | .jobj fs => by
    have := sizeO_le_flatten fs
    simp only [sizeV, flattenV, List.length_cons, List.length_append, List.length_singleton]
    omega

theorem sizeA_le_flatten : ∀ es : JArr, sizeA es ≤ (flattenA es).length + 1
  | .anil => le_refl 1
  | .acons v vs => by
    have h1 := sizeV_le_flatten v
    have h2 := sizeA_le_flatten vs
    simp only [sizeA, flattenA, List.length_append]
    omega

theorem sizeO_le_flatten : ∀ fs : JObj, sizeO fs ≤ (flattenO fs).length + 1
  | .onil => le_refl 1
  | .ocons k v fs => by
    have h1 := sizeV_le_flatten v
    have h2 := sizeO_le_flatten fs
    simp only [sizeO, flattenO, List.length_cons, List.length_append]
    omega
end

/-- Every serialized value starts with a token that is not a closing
bracket, a closing brace or an object key. -/
theorem flattenV_head : ∀ v : JValue, ∃ t ts, flattenV v = t :: ts ∧
    t ≠ .tarrC ∧ t ≠ .tobjC ∧ ∀ k, t ≠ .tkey k := by
  intro v
  cases v with
  | jnull => exact ⟨_, _, rfl, by decide, by decide, by intro k; simp⟩
  | jbool b => exact ⟨_, _, rfl, by simp, by simp, by intro k; simp⟩
  | jint n => exact ⟨_, _, rfl, by simp, by simp, by intro k; simp⟩
  | jstr s => exact ⟨_, _, rfl, by simp, by simp, by intro k; simp⟩
  | jarr es => exact ⟨_, _, rfl, by simp, by simp, by intro k; simp⟩
  | jobj fs => exact ⟨_, _, rfl, by simp, by simp, by intro k; simp⟩

/-- Reduction of `parseA` on a stream that does not start with the closing
bracket. -/
theorem parseA_cons_eq (fuel : Nat) (t : JTok) (ts : List JTok) (h : t ≠ .tarrC) :
    parseA (fuel + 1) (t :: ts) =
      match parseV fuel (t :: ts) with
      | some (v, ts1) =>
        match parseA fuel ts1 with
        | some (vs, ts2) => some (.acons v vs, ts2)
        | none => none
      | none => none := by
  cases t <;> first | rfl | exact absurd rfl h

/-- Round-trip of the token codec: parsing a serialized value (with enough
fuel) returns exactly that value and the unconsumed remainder. -/
theorem parse_flatten (fuel : Nat) :
    (∀ (v : JValue) (Z : List JTok), sizeV v ≤ fuel →
      parseV fuel (flattenV v ++ Z) = some (v, Z)) ∧
    (∀ (es : JArr) (Z : List JTok), sizeA es ≤ fuel →
      parseA fuel (flattenA es ++ .tarrC :: Z) = some (es, Z)) ∧
    (∀ (fs : JObj) (Z : List JTok), sizeO fs ≤ fuel →
      parseO fuel (flattenO fs ++ .tobjC :: Z) = some (fs, Z)) := by
  induction fuel with
  | zero =>
    refine ⟨?_, ?_, ?_⟩
    · intro v Z h; exact absurd (le_trans (sizeV_pos v) h) (by omega)
    · intro es Z h; exact absurd (le_trans (sizeA_pos es) h) (by omega)
    · intro fs Z h; exact absurd (le_trans (sizeO_pos fs) h) (by omega)
  | succ fuel ih =>
    refine ⟨?_, ?_, ?_⟩
    · intro v Z h
      cases v with
      | jnull => rfl
      | jbool b => rfl
      | jint n => rfl
      | jstr s => rfl
      | jarr es =>
        have hsz : sizeA es ≤ fuel := by
          simp only [sizeV] at h; omega
        have hred : parseV (fuel + 1) (flattenV (.jarr es) ++ Z) =
            match parseA fuel (flattenA es ++ .tarrC :: Z) with
            | some (es', ts') => some (.jarr es', ts')
            | none => none := by
          simp only [flattenV, List.cons_append, List.append_assoc, List.singleton_append]
          rfl
        rw [hred, ih.2.1 es Z hsz]
      | jobj fs =>
        have hsz : sizeO fs ≤ fuel := by
          simp only [sizeV] at h; omega
        have hred : parseV (fuel + 1) (flattenV (.jobj fs) ++ Z) =
            match parseO fuel (flattenO fs ++ .tobjC :: Z) with
            | some (fs', ts') => some (.jobj fs', ts')
            | none => none := by
          simp only [flattenV, List.cons_append, List.append_assoc, List.singleton_append]
          rfl
        rw [hred, ih.2.2 fs Z hsz]
    · intro es Z h
      cases es with
      | anil => simp only [flattenA, List.nil_append]; rfl
      | acons v vs =>
        have hv : sizeV v ≤ fuel := by
          have := sizeA_pos vs
          simp only [sizeA] at h; omega
        have hvs : sizeA vs ≤ fuel := by
          have := sizeV_pos v
          simp only [sizeA] at h; omega
        obtain ⟨t, ts, hts, htA, _htO, _htK⟩ := flattenV_head v
        have hshape : flattenA (.acons v vs) ++ .tarrC :: Z =
            t :: (ts ++ (flattenA vs ++ .tarrC :: Z)) := by
          simp only [flattenA, List.append_assoc, hts, List.cons_append]
        rw [hshape, parseA_cons_eq fuel t _ htA]
        have hV : parseV fuel (t :: (ts ++ (flattenA vs ++ .tarrC :: Z))) =
            some (v, flattenA vs ++ .tarrC :: Z) := by
          have := ih.1 v (flattenA vs ++ .tarrC :: Z) hv
          rw [hts] at this
          simpa using this
        rw [hV]
        show (match parseA fuel (flattenA vs ++ .tarrC :: Z) with
              | some (vs', ts2) => some (JArr.acons v vs', ts2)
              | none => none) = some (JArr.acons v vs, Z)
        rw [ih.2.1 vs Z hvs]
    · intro fs Z h
      cases fs with
      | onil => simp only [flattenO, List.nil_append]; rfl
      | ocons k v fs =>
        have hv : sizeV v ≤ fuel := by
          have := sizeO_pos fs
          simp only [sizeO] at h; omega
        have hfs : sizeO fs ≤ fuel := by
          have := sizeV_pos v
          simp only [sizeO] at h; omega
        have hshape : flattenO (.ocons k v fs) ++ .tobjC :: Z =
            .tkey k :: (flattenV v ++ (flattenO fs ++ .tobjC :: Z)) := by
          simp only [flattenO, List.cons_append, List.append_assoc]
        have hred : parseO (fuel + 1) (.tkey k :: (flattenV v ++ (flattenO fs ++ .tobjC :: Z))) =
            match parseV fuel (flattenV v ++ (flattenO fs ++ .tobjC :: Z)) with
            | some (v', ts1) =>
              match parseO fuel ts1 with
              | some (fs', ts2) => some (.ocons k v' fs', ts2)
              | none => none
            | none => none := rfl
        rw [hshape, hred, ih.1 v _ hv]
        show (match parseO fuel (flattenO fs ++ .tobjC :: Z) with
              | some (fs', ts2) => some (JObj.ocons k v fs', ts2)
              | none => none) = some (JObj.ocons k v fs, Z)
        rw [ih.2.2 fs Z hfs]

/-- Token-level model of `JsonWrapper.dumps` (the JSON serializer used by
`SerializedDict.serialize`; the `JsonWrapper` utility wrapping Python's
`json` module is a dependency of serialization.py not present in src). -/
def jsonDumps (v : JValue) : List JTok := flattenV v

/-- Token-level model of `JsonWrapper.load`: parse one value and require the
whole stream to be consumed. -/
def jsonLoad (ts : List JTok) : Option JValue :=
  match parseV ts.length ts with
  | some (v, []) => some v
  | _ => none

/-- Token-level model of `pickle.dump` (protocol-level lexemes; pickle is a
self-describing format whose lexing is unambiguous). -/
def pickleDumps (v : JValue) : List JTok := flattenV v

/-- Token-level model of `pickle.load`. -/
def pickleLoads (ts : List JTok) : Option JValue :=
  match parseV ts.length ts with
  | some (v, []) => some v
  | _ => none

theorem jsonLoad_jsonDumps (v : JValue) : jsonLoad (jsonDumps v) = some v := by
  unfold jsonLoad jsonDumps
  have h := (parse_flatten (flattenV v).length).1 v []
    (sizeV_le_flatten v)
  rw [List.append_nil] at h
  rw [h]

namespace SerializedDict

/-- `SerializedDict.pack` (serialization.py lines 110-112): the identity. -/
def pack (data : JObj) : JObj := data

/-- `SerializedDict.unpack` (serialization.py lines 114-116): the identity. -/
def unpack (data : JObj) : JObj := data

/-- `SerializedDict.serialize` (serialization.py lines 96-104): write
`JsonWrapper.dumps(self.pack(self.data))` to the backing file. -/
def serialize (data : JObj) : List JTok := jsonDumps (.jobj (pack data))

/-- `SerializedDict.deserialize` (serialization.py lines 106-108): return
`self.unpack(JsonWrapper.load(self.filepath))`, reading back the serialized
file contents. -/
def deserialize (ts : List JTok) : Option JObj :=
  match jsonLoad ts with
  | some (.jobj d) => some (unpack d)
  | _ => none

end SerializedDict

namespace PickledDict

/-- `PickledDict.serialize` (serialization.py lines 136-138):
`pickle.dump(self.pack(self.data), f, protocol=4)`. -/
def serialize (data : JObj) : List JTok := pickleDumps (.jobj (SerializedDict.pack data))

/-- `PickledDict.deserialize` (serialization.py lines 140-145):
`self.unpack(pickle.load(open(self.filepath, "rb")))`. -/
def deserialize (ts : List JTok) : Option JObj :=
  match pickleLoads ts with
  | some (.jobj d) => some (SerializedDict.unpack d)
  | _ => none

end PickledDict

/-- Claim C6, confirmed: for every mapping the store can hold (a
string-keyed mapping of JSON-representable values), deserializing the
serialized form yields the mapping back, for the JSON-backed
`SerializedDict` and for the pickle-backed `PickledDict`. -/
theorem c6_store_round_trip :
    (∀ d : JObj, SerializedDict.deserialize (SerializedDict.serialize d) = some d) ∧
    (∀ d : JObj, PickledDict.deserialize (PickledDict.serialize d) = some d) := by
  constructor
  · intro d
    unfold SerializedDict.deserialize SerializedDict.serialize
    rw [jsonLoad_jsonDumps]
    rfl
  · intro d
    unfold PickledDict.deserialize PickledDict.serialize
    have h : pickleLoads (pickleDumps (.jobj (SerializedDict.pack d))) =
        some (.jobj (SerializedDict.pack d)) :=
      jsonLoad_jsonDumps (.jobj (SerializedDict.pack d))
    rw [h]
    rfl

/-! ### Idempotence of `slugify`

`activate_project` re-slugifies names that `create_project`/`copy_project`
already slugified, so stability of `slugify` on its own output is needed to
relate the lookup key with the stored row name. -/

theorem char_toNat_ofNat_valid {n : Nat} (h : n.isValidChar) :
    (Char.ofNat n).toNat = n := by
  rw [Char.ofNat, dif_pos h]
  rfl

theorem char_toLower_idem (c : Char) : c.toLower.toLower = c.toLower := by
  by_cases h : c.toNat ≥ 65 ∧ c.toNat ≤ 90
  · have h1 : c.toLower = Char.ofNat (c.toNat + 32) := by
      simp only [Char.toLower]
      rw [if_pos h]
    have hv : (c.toNat + 32).isValidChar := Or.inl (by omega)
    have ht : (Char.ofNat (c.toNat + 32)).toNat = c.toNat + 32 :=
      char_toNat_ofNat_valid hv
    rw [h1]
    simp only [Char.toLower]
    rw [ht, if_neg (by omega)]
  · have h1 : c.toLower = c := by
      simp only [Char.toLower]
      rw [if_neg h]
    rw [h1, h1]

theorem mem_collapseDash {c : Char} :
    ∀ (b : Bool) (s : Str), c ∈ collapseDash b s → c = '-' ∨ c ∈ s := by
  intro b s
  induction s generalizing b with
  | nil => intro h; simp [collapseDash] at h
  | cons d rest ih =>
    intro h
    simp only [collapseDash] at h
    by_cases hd : d = '-'
    · rw [if_pos hd] at h
      cases hb : b
      · subst hb
        rw [if_neg (by decide)] at h
        rcases List.mem_cons.mp h with h1 | h2
        · exact Or.inl h1
        · rcases ih true h2 with h3 | h4
          · exact Or.inl h3
          · exact Or.inr (List.mem_cons_of_mem _ h4)
      · subst hb
        rw [if_pos rfl] at h
        rcases ih true h with h3 | h4
        · exact Or.inl h3
        · exact Or.inr (List.mem_cons_of_mem _ h4)
    · rw [if_neg hd] at h
      rcases List.mem_cons.mp h with h1 | h2
      · exact Or.inr (h1 ▸ List.mem_cons_self _ _)
      · rcases ih false h2 with h3 | h4
        · exact Or.inl h3
        · exact Or.inr (List.mem_cons_of_mem _ h4)

theorem mem_stripDash {c : Char} {s : Str} (h : c ∈ stripDash s) : c ∈ s := by
  unfold stripDash dropLeadDash at h
  rw [List.mem_reverse] at h
  have h1 := (List.dropWhile_sublist
    (l := (s.dropWhile (fun c => c = '-')).reverse) (p := fun c => c = '-')).subset h
  rw [List.mem_reverse] at h1
  exact (List.dropWhile_sublist (l := s) (p := fun c => c = '-')).subset h1

theorem slugify_char_fixed {s : Str} {c : Char} (hc : c ∈ slugify s) :
    slugSub c.toLower = c := by
  unfold slugify at hc
  have h1 := mem_stripDash hc
  rcases mem_collapseDash false _ h1 with h2 | h2
  · subst h2; decide
  · rw [List.mem_map] at h2
    obtain ⟨e, he, hec⟩ := h2
    rw [List.mem_map] at he
    obtain ⟨a, _, ha⟩ := he
    subst hec
    subst ha
    by_cases hal : (Char.toLower a).isAlphanum = true
    · have hval : slugSub a.toLower = a.toLower := by
        unfold slugSub
        rw [if_pos hal]
      rw [hval, slugSub, char_toLower_idem, if_pos hal]
    · have hval : slugSub a.toLower = '-' := by
        unfold slugSub
        rw [if_neg hal]
      rw [hval]
      decide

theorem list_map_eq_self {α : Type} {f : α → α} :
    ∀ {l : List α}, (∀ c ∈ l, f c = c) → l.map f = l := by
  intro l
  induction l with
  | nil => intro _; rfl
  | cons c r ih =>
    intro h
    simp only [List.map_cons]
    rw [h c (List.mem_cons_self _ _), ih (fun d hd => h d (List.mem_cons_of_mem _ hd))]

/-- The pairwise condition "no two adjacent hyphens". -/
def NoDD (l : Str) : Prop := List.Chain' (fun a b => ¬(a = '-' ∧ b = '-')) l

theorem head?_collapseDash_true (l : Str) : (collapseDash true l).head? ≠ some '-' := by
  induction l with
  | nil => simp [collapseDash]
  | cons c r ih =>
    by_cases h : c = '-'
    · simpa [collapseDash, h] using ih
    · simp [collapseDash, h]

theorem noDD_collapseDash : ∀ (b : Bool) (l : Str), NoDD (collapseDash b l) := by
  intro b l
  induction l generalizing b with
  | nil => simp [collapseDash, NoDD]
  | cons c r ih =>
    by_cases hc : c = '-'
    · subst hc
      cases b
      · have hred : collapseDash false ('-' :: r) = '-' :: collapseDash true r := by
          simp [collapseDash]
        rw [NoDD, hred]
        refine List.chain'_cons'.mpr ⟨?_, ih true⟩
        intro y hy hcontra
        rw [Option.mem_def, hcontra.2] at hy
        exact head?_collapseDash_true r hy
      · have hred : collapseDash true ('-' :: r) = collapseDash true r := by
          simp [collapseDash]
        rw [NoDD, hred]
        exact ih true
    · have hred : collapseDash b (c :: r) = c :: collapseDash false r := by
        simp [collapseDash, hc]
      rw [NoDD, hred]
      refine List.chain'_cons'.mpr ⟨?_, ih false⟩
      intro y _ hcontra
      exact hc hcontra.1

theorem noDD_reverse {l : Str} (h : NoDD l) : NoDD l.reverse := by
  rw [NoDD, List.chain'_reverse]
  exact List.Chain'.imp (fun a b hab hba => hab ⟨hba.2, hba.1⟩) h

theorem noDD_stripDash {l : Str} (h : NoDD l) : NoDD (stripDash l) := by
  unfold stripDash dropLeadDash
  have h1 : NoDD (l.dropWhile (fun c => c = '-')) :=
    h.suffix (List.dropWhile_suffix _)
  have h2 := noDD_reverse h1
  have h3 : NoDD ((l.dropWhile (fun c => c = '-')).reverse.dropWhile (fun c => c = '-')) :=
    h2.suffix (List.dropWhile_suffix _)
  exact noDD_reverse h3

theorem collapseDash_eq_self : ∀ l : Str, NoDD l →
    collapseDash false l = l ∧ (l.head? ≠ some '-' → collapseDash true l = l) := by
  intro l
  induction l with
  | nil => intro _; exact ⟨rfl, fun _ => rfl⟩
  | cons c r ih =>
    intro h
    have hr : NoDD r := h.tail
    by_cases hc : c = '-'
    · subst hc
      have hhead : r.head? ≠ some '-' := by
        intro hr'
        exact (List.chain'_cons'.mp h).1 '-' (Option.mem_def.mpr hr') ⟨rfl, rfl⟩
      constructor
      · have hred : collapseDash false ('-' :: r) = '-' :: collapseDash true r := by
          simp [collapseDash]
        rw [hred, (ih hr).2 hhead]
      · intro habs
        exact absurd rfl habs
    · have hred : ∀ b, collapseDash b (c :: r) = c :: collapseDash false r := by
        intro b; simp [collapseDash, hc]
      constructor
      · rw [hred false, (ih hr).1]
      · intro _
        rw [hred true, (ih hr).1]

theorem dropWhile_dash_eq_self {l : Str} (h : l.head? ≠ some '-') :
    l.dropWhile (fun c => c = '-') = l := by
  cases l with
  | nil => rfl
  | cons c r =>
    have hc : ¬(c = '-') := fun hc => h (by simp [hc])
    simp [List.dropWhile_cons, hc]

theorem stripDash_eq_self {l : Str} (h1 : l.head? ≠ some '-')
    (h2 : l.getLast? ≠ some '-') : stripDash l = l := by
  unfold stripDash dropLeadDash
  rw [dropWhile_dash_eq_self h1]
  rw [dropWhile_dash_eq_self (by rw [← List.getLast?_eq_head?_reverse]; exact h2)]
  exact List.reverse_reverse l

theorem head?_dropWhile_dash (l : Str) :
    (l.dropWhile (fun c => c = '-')).head? ≠ some '-' := by
  induction l with
  | nil => simp
  | cons c r ih =>
    by_cases h : c = '-'
    · simpa [List.dropWhile_cons, h] using ih
    · simp [List.dropWhile_cons, h]

theorem getLast?_stripDash (l : Str) : (stripDash l).getLast? ≠ some '-' := by
  unfold stripDash
  rw [List.getLast?_eq_head?_reverse, List.reverse_reverse]
  exact head?_dropWhile_dash _

theorem head?_stripDash (l : Str) : (stripDash l).head? ≠ some '-' := by
  unfold stripDash dropLeadDash
  rw [← List.getLast?_eq_head?_reverse]
  intro hcontra
  obtain ⟨t, ht⟩ := List.dropWhile_suffix
    (l := (l.dropWhile (fun c => c = '-')).reverse) (p := fun c => c = '-')
  have hk : ((l.dropWhile (fun c => c = '-')).reverse).getLast? = some '-' := by
    rw [← ht, List.getLast?_append, hcontra]
    rfl
  rw [List.getLast?_eq_head?_reverse, List.reverse_reverse] at hk
  exact head?_dropWhile_dash l hk

theorem collapseDash_slugify_eq_self (s : Str) :
    collapseDash false (slugify s) = slugify s := by
  have hnodd : NoDD (slugify s) := by
    unfold slugify
    exact noDD_stripDash (noDD_collapseDash false _)
  exact (collapseDash_eq_self _ hnodd).1

theorem slugify_idem (s : Str) : slugify (slugify s) = slugify s := by
  have hmap : ((slugify s).map Char.toLower).map slugSub = slugify s := by
    rw [List.map_map]
    exact list_map_eq_self (fun c hc => slugify_char_fixed hc)
  have hstep : slugify (slugify s) =
      stripDash (collapseDash false (((slugify s).map Char.toLower).map slugSub)) := rfl
  rw [hstep, hmap, collapseDash_slugify_eq_self]
  have hhead : (slugify s).head? ≠ some '-' := by
    unfold slugify
    exact head?_stripDash _
  have hlast : (slugify s).getLast? ≠ some '-' := by
    unfold slugify
    exact getLast?_stripDash _
  exact stripDash_eq_self hhead hlast

/-! ### Filesystem primitives

The filesystem is the finite set of directories that exist; `mkdir` inserts
a directory, `rmtree` removes a subtree, `copytree` replicates one. -/

/-- `isUnder q p` holds when the directory `q` lies in the tree rooted at
`p` (including `q = p`): `p` is a segment-wise path prefix of `q`. -/
def isUnder : FsPath → FsPath → Bool
  | _, [] => true
  | [], _ :: _ => false
  | a :: as, b :: bs => decide (a = b) && isUnder as bs

theorem isUnder_iff {q p : FsPath} : isUnder q p = true ↔ ∃ s, q = p ++ s := by
  induction p generalizing q with
  | nil =>
    simp only [isUnder, List.nil_append]
    constructor
    · intro _; exact ⟨q, rfl⟩
    · intro _; trivial
  | cons b bs ih =>
    cases q with
    | nil =>
      simp only [isUnder]
      constructor
      · intro h; exact absurd h (by decide)
      · intro ⟨s, hs⟩; exact absurd hs (by simp)
    | cons a as =>
      simp only [isUnder, Bool.and_eq_true, decide_eq_true_eq]
      constructor
      · intro ⟨hab, hrest⟩
        obtain ⟨s, hs⟩ := ih.mp hrest
        exact ⟨s, by rw [hab, hs]; rfl⟩
      · intro ⟨s, hs⟩
        rw [List.cons_append] at hs
        injection hs with h1 h2
        exact ⟨h1, ih.mpr ⟨s, h2⟩⟩

theorem isUnder_refl (p : FsPath) : isUnder p p = true :=
  isUnder_iff.mpr ⟨[], (List.append_nil p).symm⟩

theorem isUnder_append (p s : FsPath) : isUnder (p ++ s) p = true :=
  isUnder_iff.mpr ⟨s, rfl⟩

/-- Two same-depth children of the same parent: being under one determines
the child segment. -/
theorem isUnder_child_inj {q base : FsPath} {d e : Str}
    (h1 : isUnder q (base ++ [d]) = true) (h2 : isUnder q (base ++ [e]) = true) :
    d = e := by
  obtain ⟨s1, hs1⟩ := isUnder_iff.mp h1
  obtain ⟨s2, hs2⟩ := isUnder_iff.mp h2
  rw [hs1] at hs2
  have hlen : (base ++ [e]).length = (base ++ [d]).length := by
    simp
  have := (List.append_inj hs2.symm hlen).1
  have h3 := (List.append_inj this (by rfl : base.length = base.length)).2
  injection h3 with h4
  exact h4.symm

/-- `pathlib.Path.mkdir(parents=True, exist_ok=·)`: raises `FileExistsError`
on an existing path unless `exist_ok`; otherwise creates the directory (the
parent always exists in the modelled states, so only the path itself is
inserted). -/
def mkdir (fs : Finset FsPath) (p : FsPath) (exist_ok : Bool) :
    Except PyErr (Finset FsPath) :=
  if p ∈ fs then
    if exist_ok then .ok fs else .error .fileExistsError
  else .ok (insert p fs)

/-- `shutil.rmtree(p)`: raises `FileNotFoundError` when `p` does not exist,
otherwise removes the whole tree rooted at `p`. -/
def rmtree (fs : Finset FsPath) (p : FsPath) : Except PyErr (Finset FsPath) :=
  if p ∈ fs then .ok (fs.filter (fun q => isUnder q p = false))
  else .error .fileNotFoundError

/-- `shutil.copytree(src, dst, dirs_exist_ok=·)`: raises when `src` is
missing, raises `FileExistsError` when `dst` exists and `dirs_exist_ok` is
false, otherwise replicates the tree under `src` at `dst`. -/
def copytree (fs : Finset FsPath) (src dst : FsPath) (dirs_exist_ok : Bool) :
    Except PyErr (Finset FsPath) :=
  if src ∉ fs then .error .fileNotFoundError
  else if dst ∈ fs ∧ dirs_exist_ok = false then .error .fileExistsError
  else .ok (fs ∪ (fs.filter (fun q => isUnder q src = true)).image
    (fun q => dst ++ q.drop src.length))

/-! ### bw_projects: registry rows and `DatabaseHelper` -/

/-- Project attributes (`Dict[str, str]` stored in the `attributes`
`JSONField`). -/
abbrev Attrs := List (Str × Str)

/-- A row of the `Project` table (src/bw_projects/model.py): `name`
(unique), `dir_data`, `dir_logs`, `attributes`. -/
structure Project where
  name : Str
  dir_data : FsPath
  dir_logs : FsPath
  attributes : Attrs
deriving DecidableEq, Repr

namespace DatabaseHelper

/-- `DatabaseHelper.project_exists` (src/bw_projects/helpers.py lines
61-64): `Project.select().where(Project.name == name).count() > 0`. -/
def project_exists (registry : List Project) (name : Str) : Bool :=
  registry.any (fun p => decide (p.name = name))

/-- `DatabaseHelper.get_project` (helpers.py lines 46-49):
`Project.get(Project.name == name)`, the first row with the given name;
peewee raises `DoesNotExist` on a miss, handled at each call site. -/
def get_project (registry : List Project) (name : Str) : Option Project :=
  registry.find? (fun p => decide (p.name = name))

/-- `DatabaseHelper.create_project` (helpers.py lines 19-26):
`Project.create(name=..., dir_data=..., dir_logs=..., attributes=...)`,
inserting a new row. -/
def create_project (registry : List Project) (name : Str)
    (data_path logs_path : FsPath) (attributes : Attrs) :
    List Project × Project :=
  let row : Project := ⟨name, data_path, logs_path, attributes⟩
  (registry ++ [row], row)

/-- `DatabaseHelper.delete_project` (helpers.py lines 28-31):
`Project.delete().where(Project.name == name).execute()`. -/
def delete_project (registry : List Project) (name : Str) : List Project :=
  registry.filter (fun p => !decide (p.name = name))

end DatabaseHelper

/-! ### bw_projects: `FileHelper` -/

/-- The directory layout state of `FileHelper` (src/bw_projects/helpers.py):
base data directory, base logs directory, and the basic subdirectory names
(`Configuration.DIRS_BASIC = ["backups", "intermediate", "lci",
"processed"]`). -/
structure FileHelper where
  dir_base_data : FsPath
  dir_base_logs : FsPath
  dirs_basic : List Str
deriving DecidableEq, Repr

/-- `Configuration.DIRS_BASIC` (src/bw_projects/config.py). -/
def DIRS_BASIC : List Str :=
  [['b','a','c','k','u','p','s'],
   ['i','n','t','e','r','m','e','d','i','a','t','e'],
   ['l','c','i'],
   ['p','r','o','c','e','s','s','e','d']]

namespace FileHelper

/-- `FileHelper.get_project_data_directory` (helpers.py lines 98-100). -/
def get_project_data_directory (fh : FileHelper) (name : Str) : FsPath :=
  fh.dir_base_data ++ [name]

/-- `FileHelper.get_project_logs_directory` (helpers.py lines 102-104). -/
def get_project_logs_directory (fh : FileHelper) (name : Str) : FsPath :=
  fh.dir_base_logs ++ [name]

/-- Sequence of `mkdir` calls; on the first failure the directories already
created stay created (the Python exception propagates). -/
def mkdirSeq (fs : Finset FsPath) (ps : List FsPath) (exist_ok : Bool) :
    Finset FsPath × Option PyErr :=
  match ps with
  | [] => (fs, none)
  | p :: rest =>
    match mkdir fs p exist_ok with
    | .error e => (fs, some e)
    | .ok fs' => mkdirSeq fs' rest exist_ok

/-- `FileHelper.create_project_directory` (helpers.py lines 106-117): make
the project data directory, each basic subdirectory, then the logs
directory, all with the given `exist_ok`; returns the data and logs paths. -/
def create_project_directory (fh : FileHelper) (fs : Finset FsPath)
    (name : Str) (exist_ok : Bool) :
    Finset FsPath × Option PyErr × (FsPath × FsPath) :=
  let project_data_dir := fh.get_project_data_directory name
  let project_logs_dir := fh.get_project_logs_directory name
  let (fs', e) := mkdirSeq fs
    (project_data_dir ::
      (fh.dirs_basic.map (fun d => project_data_dir ++ [d]) ++ [project_logs_dir]))
    exist_ok
  (fs', e, (project_data_dir, project_logs_dir))

/-- `FileHelper.delete_project_directory` (helpers.py lines 119-122):
`shutil.rmtree` of the data directory, then of the logs directory. -/
def delete_project_directory (fh : FileHelper) (fs : Finset FsPath)
    (name : Str) : Finset FsPath × Option PyErr :=
  match rmtree fs (fh.get_project_data_directory name) with
  | .error e => (fs, some e)
  | .ok fs1 =>
    match rmtree fs1 (fh.get_project_logs_directory name) with
    | .error e => (fs1, some e)
    | .ok fs2 => (fs2, none)

/-- `FileHelper.copy_project_directory` (helpers.py lines 124-140):
`shutil.copytree` of the data tree, then of the logs tree; returns the new
paths. -/
def copy_project_directory (fh : FileHelper) (fs : Finset FsPath)
    (name new_name : Str) (dirs_exist_ok : Bool) :
    Finset FsPath × Option PyErr × (FsPath × FsPath) :=
  let new_data_path := fh.get_project_data_directory new_name
  let new_logs_path := fh.get_project_logs_directory new_name
  match copytree fs (fh.get_project_data_directory name) new_data_path dirs_exist_ok with
  | .error e => (fs, some e, (new_data_path, new_logs_path))
  | .ok fs1 =>
    match copytree fs1 (fh.get_project_logs_directory name) new_logs_path dirs_exist_ok with
    | .error e => (fs1, some e, (new_data_path, new_logs_path))
    | .ok fs2 => (fs2, none, (new_data_path, new_logs_path))

end FileHelper

/-! ### bw_projects: `ProjectsManager` (core.py) -/

/-- The mutable state a `ProjectsManager` instance works on: its
`FileHelper`, the project table of the backing database, the filesystem,
and `_active_project`.  Callback lists are empty by default and are not
modelled. -/
structure MState where
  file_helper : FileHelper
  registry : List Project
  fs : Finset FsPath
  active : Option Project
deriving DecidableEq

namespace ProjectsManager

/-- `ProjectsManager.activate_project` (core.py lines 105-115): re-slugify
the name, look the row up (`DoesNotExist` on a miss) and store it in
`_active_project`. -/
def activate_project (st : MState) (name : Str) : MState × Option PyErr :=
  let project_name := get_clean_project_name name
  match DatabaseHelper.get_project st.registry project_name with
  | none => (st, some .doesNotExist)
  | some p => ({ st with active := some p }, none)

/-- `ProjectsManager.create_project` (core.py lines 117-145): slugify the
name; if no row exists, create the workspace directories and then the row;
otherwise fail with `ProjectExistsError` unless `exist_ok`, in which case
return the existing row unchanged.  Optionally activate the project. -/
def create_project (st : MState) (name : Str) (attributes : Attrs)
    (exist_ok activate : Bool) : MState × Option PyErr × Option Project :=
  let project_name := get_clean_project_name name
  if DatabaseHelper.project_exists st.registry project_name then
    if exist_ok then
      match DatabaseHelper.get_project st.registry project_name with
      | none => (st, some .doesNotExist, none)
      | some project =>
        if activate then
          match activate_project st project_name with
          | (st', none) => (st', none, some project)
          | (st', some e) => (st', some e, none)
        else (st, none, some project)
    else (st, some .projectExistsError, none)
  else
    match st.file_helper.create_project_directory st.fs project_name exist_ok with
    | (fs', some e, _) => ({ st with fs := fs' }, some e, none)
    | (fs', none, (data_path, logs_path)) =>
      let (registry', project) := DatabaseHelper.create_project st.registry
        project_name data_path logs_path attributes
      let st1 : MState := { st with fs := fs', registry := registry' }
      if activate then
        match activate_project st1 project_name with
        | (st2, none) => (st2, none, some project)
        | (st2, some e) => (st2, some e, none)
      else (st1, none, some project)

/-- `ProjectsManager.delete_project` (core.py lines 147-163): slugify the
name; a missing row raises `DoesNotExist` unless `not_exist_ok`; otherwise
delete the row, then (with `delete_dir`) the directories, then clear
`_active_project` if it was the deleted project — via
`self._active_project.name`, which raises `AttributeError` when no project
is active. -/
def delete_project (st : MState) (name : Str) (not_exist_ok delete_dir : Bool) :
    MState × Option PyErr :=
  let project_name := get_clean_project_name name
  if DatabaseHelper.project_exists st.registry project_name then
    let registry' := DatabaseHelper.delete_project st.registry project_name
    let st1 : MState := { st with registry := registry' }
    match (if delete_dir then st.file_helper.delete_project_directory st1.fs project_name
           else (st1.fs, none)) with
    | (fs', some e) => ({ st1 with fs := fs' }, some e)
    | (fs', none) =>
      let st2 : MState := { st1 with fs := fs' }
      match st2.active with
      | none => (st2, some .attributeError)
      | some p =>
        if p.name = project_name then ({ st2 with active := none }, none)
        else (st2, none)
  else
    if not_exist_ok then (st, none) else (st, some .doesNotExist)

/-- `ProjectsManager.copy_project` (core.py lines 165-186): slugify the new
name; fail with `ProjectExistsError` if a row exists; copy the active
project's directories (`self.active_project.name` raises `AttributeError`
when none is active), duplicate the row with the source attributes, and
optionally switch to the new project. -/
def copy_project (st : MState) (new_name : Str) (dirs_exist_ok switch : Bool) :
    MState × Option PyErr × Option Project :=
  let project_name := get_clean_project_name new_name
  if DatabaseHelper.project_exists st.registry project_name then
    (st, some .projectExistsError, none)
  else
    match st.active with
    | none => (st, some .attributeError, none)
    | some act =>
      match st.file_helper.copy_project_directory st.fs act.name project_name
            dirs_exist_ok with
      | (fs', some e, _) => ({ st with fs := fs' }, some e, none)
      | (fs', none, (data_path, logs_path)) =>
        match DatabaseHelper.get_project st.registry act.name with
        | none => ({ st with fs := fs' }, some .doesNotExist, none)
        | some src_row =>
          let (registry', project) := DatabaseHelper.create_project st.registry
            project_name data_path logs_path src_row.attributes
          let st1 : MState := { st with fs := fs', registry := registry' }
          if switch then
            match activate_project st1 project_name with
            | (st2, none) => (st2, none, some project)
            | (st2, some e) => (st2, some e, none)
          else (st1, none, some project)

end ProjectsManager

/-! ### Registry lemmas -/

namespace DatabaseHelper

theorem get_project_eq_none {r : List Project} {n : Str}
    (h : project_exists r n = false) : get_project r n = none := by
  rw [get_project, List.find?_eq_none]
  intro p hp
  rw [project_exists, List.any_eq_false] at h
  exact h p hp

theorem get_project_of_exists {r : List Project} {n : Str}
    (h : project_exists r n = true) :
    ∃ p, get_project r n = some p ∧ p.name = n := by
  rw [project_exists, List.any_eq_true] at h
  obtain ⟨x, hx, hpx⟩ := h
  have hsome : (r.find? (fun p => decide (p.name = n))).isSome := by
    rw [List.find?_isSome]
    exact ⟨x, hx, hpx⟩
  obtain ⟨q, hq⟩ := Option.isSome_iff_exists.mp hsome
  refine ⟨q, hq, ?_⟩
  have := List.find?_some hq
  exact of_decide_eq_true this

theorem project_exists_append_self (r : List Project) (row : Project) :
    project_exists (r ++ [row]) row.name = true := by
  simp [project_exists]

theorem get_project_append_of_not_exists {r : List Project} {row : Project}
    (h : project_exists r row.name = false) :
    get_project (r ++ [row]) row.name = some row := by
  rw [get_project, List.find?_append]
  have h1 : r.find? (fun p => decide (p.name = row.name)) = none :=
    get_project_eq_none h
  rw [h1]
  simp [List.find?]

theorem project_exists_delete_self (r : List Project) (n : Str) :
    project_exists (delete_project r n) n = false := by
  rw [project_exists, List.any_eq_false]
  intro x hx
  rw [delete_project, List.mem_filter] at hx
  simp only [Bool.not_eq_true', decide_eq_false_iff_not] at hx
  simp only [decide_eq_true_eq]
  exact hx.2

end DatabaseHelper


/-! ### Claim C4 -/

theorem bool_eq_false_of_ne_true {b : Bool} (h : ¬ b = true) : b = false := by
  cases b
  · rfl
  · exact absurd rfl h

/-- Claim C4, confirmed: after `create_project(n)` succeeds the slug of `n`
is in the registry; from any such state a second `create_project(n)` without
`exist_ok` raises `ProjectExistsError` leaving the state untouched, and a
second `create_project(n)` with `exist_ok=True` returns the existing record
while modifying neither the registry nor the filesystem. -/
theorem c4_create_unique :
    (∀ (st : MState) (name : Str) (attributes : Attrs) (eok act : Bool)
        (st' : MState) (p : Project),
      ProjectsManager.create_project st name attributes eok act = (st', none, some p) →
      DatabaseHelper.project_exists st'.registry (get_clean_project_name name) = true) ∧
    (∀ (st : MState) (name : Str) (attributes : Attrs) (act : Bool),
      DatabaseHelper.project_exists st.registry (get_clean_project_name name) = true →
      ProjectsManager.create_project st name attributes false act =
        (st, some .projectExistsError, none)) ∧
    (∀ (st : MState) (name : Str) (attributes : Attrs) (act : Bool),
      DatabaseHelper.project_exists st.registry (get_clean_project_name name) = true →
      (ProjectsManager.create_project st name attributes true act).1.registry = st.registry ∧
      (ProjectsManager.create_project st name attributes true act).1.fs = st.fs ∧
      (ProjectsManager.create_project st name attributes true act).2.2 =
        DatabaseHelper.get_project st.registry (get_clean_project_name name)) := by
  have hkey : ∀ name : Str, get_clean_project_name (get_clean_project_name name) =
      get_clean_project_name name := fun name => slugify_idem name
  refine ⟨?_, ?_, ?_⟩
  · intro st name attributes eok act st' p h
    by_cases hex : DatabaseHelper.project_exists st.registry (get_clean_project_name name) = true
    · cases eok with
      | false =>
        simp [ProjectsManager.create_project, hex] at h
      | true =>
        obtain ⟨q, hq, _⟩ := DatabaseHelper.get_project_of_exists hex
        cases act with
        | false =>
          simp [ProjectsManager.create_project, hex, hq] at h
          rw [← h.1]
          exact hex
        | true =>
          simp [ProjectsManager.create_project, ProjectsManager.activate_project,
            hex, hq, hkey] at h
          rw [← h.1]
          exact hex
    · have hex0 := bool_eq_false_of_ne_true hex
      rcases hdir : st.file_helper.create_project_directory st.fs
          (get_clean_project_name name) eok with ⟨fs', e, dp, lp⟩
      cases e with
      | some err =>
        simp [ProjectsManager.create_project, hex0, hdir] at h
      | none =>
        cases act with
        | false =>
          simp [ProjectsManager.create_project, hex0, hdir,
            DatabaseHelper.create_project] at h
          rw [← h.1]
          have := DatabaseHelper.project_exists_append_self st.registry
            ⟨get_clean_project_name name, dp, lp, attributes⟩
          simpa using this
        | true =>
          have hget : DatabaseHelper.get_project
              (st.registry ++ [⟨get_clean_project_name name, dp, lp, attributes⟩])
              (get_clean_project_name name) =
              some ⟨get_clean_project_name name, dp, lp, attributes⟩ :=
            DatabaseHelper.get_project_append_of_not_exists hex0
          simp [ProjectsManager.create_project, ProjectsManager.activate_project,
            hex0, hdir, DatabaseHelper.create_project, hkey, hget] at h
          rw [← h.1]
          have := DatabaseHelper.project_exists_append_self st.registry
            ⟨get_clean_project_name name, dp, lp, attributes⟩
          simpa using this
  · intro st name attributes act h
    simp [ProjectsManager.create_project, h]
  · intro st name attributes act h
    obtain ⟨q, hq, _⟩ := DatabaseHelper.get_project_of_exists h
    cases act with
    | false =>
      simp [ProjectsManager.create_project, h, hq]
    | true =>
      simp [ProjectsManager.create_project, ProjectsManager.activate_project,
        h, hq, hkey]

/-! ### Claim C5 -/

theorem mkdirSeq_fresh :
    ∀ (ps : List FsPath) (fs : Finset FsPath) (eok : Bool),
      (∀ p ∈ ps, p ∉ fs) → ps.Nodup →
      FileHelper.mkdirSeq fs ps eok = (fs ∪ ps.toFinset, none) := by
  intro ps
  induction ps with
  | nil =>
    intro fs eok _ _
    simp [FileHelper.mkdirSeq]
  | cons p rest ih =>
    intro fs eok hfresh hnodup
    have hp : p ∉ fs := hfresh p (List.mem_cons_self _ _)
    have hred : FileHelper.mkdirSeq fs (p :: rest) eok =
        FileHelper.mkdirSeq (insert p fs) rest eok := by
      simp [FileHelper.mkdirSeq, mkdir, hp]
    have hfresh' : ∀ q ∈ rest, q ∉ insert p fs := by
      intro q hq
      rw [Finset.mem_insert]
      rintro (h | h)
      · rw [List.nodup_cons] at hnodup
        exact hnodup.1 (h ▸ hq)
      · exact hfresh q (List.mem_cons_of_mem _ hq) h
    rw [hred, ih (insert p fs) eok hfresh' hnodup.of_cons]
    have hset : insert p fs ∪ rest.toFinset = fs ∪ (p :: rest).toFinset := by
      ext q
      simp only [Finset.mem_union, Finset.mem_insert, List.toFinset_cons, List.mem_toFinset]
      tauto
    rw [hset]

theorem c5_aux_nodup {dataP logsP : FsPath}
    (hlogs_ne : ∀ s : List Str, logsP ≠ dataP ++ s) :
    (dataP :: (DIRS_BASIC.map (fun d => dataP ++ [d]) ++ [logsP])).Nodup := by
  refine List.nodup_cons.mpr ⟨?_, ?_⟩
  · intro hmem
    rcases List.mem_append.mp hmem with h1 | h1
    · obtain ⟨d, _, hd⟩ := List.mem_map.mp h1
      have := congrArg List.length hd
      simp at this
    · have h2 : dataP = logsP := by simpa using h1
      exact hlogs_ne [] (by rw [← h2, List.append_nil])
  · refine List.Nodup.append ?_ (by simp) ?_
    · refine List.Nodup.map_on ?_ (by decide)
      intro x _ y _ hxy
      have := List.append_cancel_left hxy
      simpa using this
    · intro a ha hb
      obtain ⟨d, _, hd⟩ := List.mem_map.mp ha
      have hab : a = logsP := by simpa using hb
      exact hlogs_ne [d] (by rw [← hab, ← hd])

theorem create_project_fresh (st : MState) (name : Str) (attributes : Attrs)
    (hex : DatabaseHelper.project_exists st.registry (get_clean_project_name name) = false)
    (hfresh : ∀ q ∈ (st.file_helper.get_project_data_directory (get_clean_project_name name) ::
        (st.file_helper.dirs_basic.map
          (fun d => st.file_helper.get_project_data_directory (get_clean_project_name name) ++ [d]) ++
         [st.file_helper.get_project_logs_directory (get_clean_project_name name)])),
      q ∉ st.fs)
    (hnodup : (st.file_helper.get_project_data_directory (get_clean_project_name name) ::
        (st.file_helper.dirs_basic.map
          (fun d => st.file_helper.get_project_data_directory (get_clean_project_name name) ++ [d]) ++
         [st.file_helper.get_project_logs_directory (get_clean_project_name name)])).Nodup) :
    ProjectsManager.create_project st name attributes false false =
      ({ st with
          fs := st.fs ∪ (st.file_helper.get_project_data_directory (get_clean_project_name name) ::
            (st.file_helper.dirs_basic.map
              (fun d => st.file_helper.get_project_data_directory (get_clean_project_name name) ++ [d]) ++
             [st.file_helper.get_project_logs_directory (get_clean_project_name name)])).toFinset,
          registry := st.registry ++
            [⟨get_clean_project_name name,
              st.file_helper.get_project_data_directory (get_clean_project_name name),
              st.file_helper.get_project_logs_directory (get_clean_project_name name),
              attributes⟩] },
       none,
       some ⟨get_clean_project_name name,
         st.file_helper.get_project_data_directory (get_clean_project_name name),
         st.file_helper.get_project_logs_directory (get_clean_project_name name),
         attributes⟩) := by
  have hdir : st.file_helper.create_project_directory st.fs (get_clean_project_name name) false =
      (st.fs ∪ (st.file_helper.get_project_data_directory (get_clean_project_name name) ::
        (st.file_helper.dirs_basic.map
          (fun d => st.file_helper.get_project_data_directory (get_clean_project_name name) ++ [d]) ++
         [st.file_helper.get_project_logs_directory (get_clean_project_name name)])).toFinset,
       none,
       (st.file_helper.get_project_data_directory (get_clean_project_name name),
        st.file_helper.get_project_logs_directory (get_clean_project_name name))) := by
    simp only [FileHelper.create_project_directory]
    rw [mkdirSeq_fresh _ _ _ hfresh hnodup]
  simp [ProjectsManager.create_project, hex, hdir, DatabaseHelper.create_project]

theorem delete_project_dir_eq (st : MState) (name : Str) (p0 : Project)
    (hact : st.active = some p0)
    (hex : DatabaseHelper.project_exists st.registry (get_clean_project_name name) = true)
    (hdm : st.file_helper.get_project_data_directory (get_clean_project_name name) ∈ st.fs)
    (hlm : st.file_helper.get_project_logs_directory (get_clean_project_name name) ∈ st.fs)
    (hsep : isUnder (st.file_helper.get_project_logs_directory (get_clean_project_name name))
      (st.file_helper.get_project_data_directory (get_clean_project_name name)) = false) :
    ProjectsManager.delete_project st name false true =
      ({ st with
          registry := DatabaseHelper.delete_project st.registry (get_clean_project_name name),
          fs := (st.fs.filter (fun q => isUnder q (st.file_helper.get_project_data_directory
              (get_clean_project_name name)) = false)).filter
            (fun q => isUnder q (st.file_helper.get_project_logs_directory
              (get_clean_project_name name)) = false),
          active := if p0.name = get_clean_project_name name then none else st.active },
       none) := by
  have hmem2 : st.file_helper.get_project_logs_directory (get_clean_project_name name) ∈
      st.fs.filter (fun q => isUnder q (st.file_helper.get_project_data_directory
        (get_clean_project_name name)) = false) :=
    Finset.mem_filter.mpr ⟨hlm, hsep⟩
  have hdd : st.file_helper.delete_project_directory st.fs (get_clean_project_name name) =
      ((st.fs.filter (fun q => isUnder q (st.file_helper.get_project_data_directory
          (get_clean_project_name name)) = false)).filter
        (fun q => isUnder q (st.file_helper.get_project_logs_directory
          (get_clean_project_name name)) = false), none) := by
    simp [FileHelper.delete_project_directory, rmtree, hdm, hmem2]
  by_cases hp0 : p0.name = get_clean_project_name name
  · simp [ProjectsManager.delete_project, hex, hdd, hact, hp0]
  · simp [ProjectsManager.delete_project, hex, hdd, hact, hp0]

theorem delete_project_nodir_eq (st : MState) (name : Str) (p0 : Project)
    (hact : st.active = some p0)
    (hex : DatabaseHelper.project_exists st.registry (get_clean_project_name name) = true) :
    ProjectsManager.delete_project st name false false =
      ({ st with
          registry := DatabaseHelper.delete_project st.registry (get_clean_project_name name),
          active := if p0.name = get_clean_project_name name then none else st.active },
       none) := by
  by_cases hp0 : p0.name = get_clean_project_name name
  · simp [ProjectsManager.delete_project, hex, hact, hp0]
  · simp [ProjectsManager.delete_project, hex, hact, hp0]

/-- Claim C5, confirmed: creating a fresh project (fresh row, fresh
directories, an active project present so that the subsequent delete can
complete) succeeds and afterwards the registry contains the slug and the
workspace tree exists (data directory, the four basic subdirectories
`backups`, `intermediate`, `lci`, `processed`, and the logs directory);
after `delete_project` with `delete_dir=True` neither the row nor any of
those directories exists; after `delete_project` with `delete_dir=False`
the row is gone but the whole tree remains. -/
theorem c5_lifecycle_consistency (st : MState) (name : Str) (attributes : Attrs)
    (p0 : Project) (pn : Str) (dataP logsP : FsPath)
    (hpn : pn = get_clean_project_name name)
    (hdata : dataP = st.file_helper.get_project_data_directory pn)
    (hlogs : logsP = st.file_helper.get_project_logs_directory pn)
    (hdb : st.file_helper.dirs_basic = DIRS_BASIC)
    (hact : st.active = some p0)
    (hex : DatabaseHelper.project_exists st.registry pn = false)
    (hfresh : ∀ q ∈ dataP :: (DIRS_BASIC.map (fun d => dataP ++ [d]) ++ [logsP]), q ∉ st.fs)
    (hsep : isUnder logsP dataP = false) :
    (ProjectsManager.create_project st name attributes false false).2.1 = none ∧
    DatabaseHelper.project_exists
      (ProjectsManager.create_project st name attributes false false).1.registry pn = true ∧
    dataP ∈ (ProjectsManager.create_project st name attributes false false).1.fs ∧
    (∀ d ∈ DIRS_BASIC,
      dataP ++ [d] ∈ (ProjectsManager.create_project st name attributes false false).1.fs) ∧
    logsP ∈ (ProjectsManager.create_project st name attributes false false).1.fs ∧
    (DatabaseHelper.project_exists
        (ProjectsManager.delete_project
          (ProjectsManager.create_project st name attributes false false).1
          name false true).1.registry pn = false ∧
      dataP ∉ (ProjectsManager.delete_project
          (ProjectsManager.create_project st name attributes false false).1
          name false true).1.fs ∧
      (∀ d ∈ DIRS_BASIC,
        dataP ++ [d] ∉ (ProjectsManager.delete_project
          (ProjectsManager.create_project st name attributes false false).1
          name false true).1.fs) ∧
      logsP ∉ (ProjectsManager.delete_project
          (ProjectsManager.create_project st name attributes false false).1
          name false true).1.fs) ∧
    (DatabaseHelper.project_exists
        (ProjectsManager.delete_project
          (ProjectsManager.create_project st name attributes false false).1
          name false false).1.registry pn = false ∧
      dataP ∈ (ProjectsManager.delete_project
          (ProjectsManager.create_project st name attributes false false).1
          name false false).1.fs ∧
      (∀ d ∈ DIRS_BASIC,
        dataP ++ [d] ∈ (ProjectsManager.delete_project
          (ProjectsManager.create_project st name attributes false false).1
          name false false).1.fs) ∧
      logsP ∈ (ProjectsManager.delete_project
          (ProjectsManager.create_project st name attributes false false).1
          name false false).1.fs) := by
  subst hpn
  subst hdata
  subst hlogs
  have hlogs_ne : ∀ s : List Str,
      st.file_helper.get_project_logs_directory (get_clean_project_name name) ≠
      st.file_helper.get_project_data_directory (get_clean_project_name name) ++ s := by
    intro s hcontra
    have h1 := isUnder_iff.mpr ⟨s, hcontra⟩
    rw [h1] at hsep
    exact absurd hsep (by decide)
  have hfresh' : ∀ q ∈ (st.file_helper.get_project_data_directory (get_clean_project_name name) ::
      (st.file_helper.dirs_basic.map
        (fun d => st.file_helper.get_project_data_directory (get_clean_project_name name) ++ [d]) ++
       [st.file_helper.get_project_logs_directory (get_clean_project_name name)])),
      q ∉ st.fs := by
    rw [hdb]
    exact hfresh
  have hnodup' : (st.file_helper.get_project_data_directory (get_clean_project_name name) ::
      (st.file_helper.dirs_basic.map
        (fun d => st.file_helper.get_project_data_directory (get_clean_project_name name) ++ [d]) ++
       [st.file_helper.get_project_logs_directory (get_clean_project_name name)])).Nodup := by
    rw [hdb]
    exact c5_aux_nodup hlogs_ne
  have hc := create_project_fresh st name attributes hex hfresh' hnodup'
  rw [hc]
  set row : Project := ⟨get_clean_project_name name,
    st.file_helper.get_project_data_directory (get_clean_project_name name),
    st.file_helper.get_project_logs_directory (get_clean_project_name name),
    attributes⟩ with hrow
  have hexists1 : DatabaseHelper.project_exists (st.registry ++ [row])
      (get_clean_project_name name) = true := by
    have := DatabaseHelper.project_exists_append_self st.registry row
    simpa [hrow] using this
  refine ⟨rfl, ?_, ?_, ?_, ?_, ?_, ?_⟩
  · simpa using hexists1
  · simp [hdb]
  · intro d hd
    simp only [Finset.mem_union, List.mem_toFinset, List.mem_cons, List.mem_append,
      List.mem_map, List.mem_singleton, hdb]
    exact Or.inr (Or.inr (Or.inl ⟨d, hd, rfl⟩))
  · simp [hdb]
  · have hactC : ({ st with
        fs := st.fs ∪ ((st.file_helper.get_project_data_directory (get_clean_project_name name)) ::
          (st.file_helper.dirs_basic.map
            (fun d => st.file_helper.get_project_data_directory (get_clean_project_name name) ++ [d]) ++
           [st.file_helper.get_project_logs_directory (get_clean_project_name name)])).toFinset,
        registry := st.registry ++ [row] } : MState).active = some p0 := hact
    have hdel := delete_project_dir_eq
      ({ st with
        fs := st.fs ∪ ((st.file_helper.get_project_data_directory (get_clean_project_name name)) ::
          (st.file_helper.dirs_basic.map
            (fun d => st.file_helper.get_project_data_directory (get_clean_project_name name) ++ [d]) ++
           [st.file_helper.get_project_logs_directory (get_clean_project_name name)])).toFinset,
        registry := st.registry ++ [row] }) name p0 hactC hexists1
      (by simp) (by simp) hsep
    rw [hdel]
    refine ⟨?_, ?_, ?_, ?_⟩
    · simpa using DatabaseHelper.project_exists_delete_self (st.registry ++ [row])
        (get_clean_project_name name)
    · simp [Finset.mem_filter, isUnder_refl]
    · intro d hd
      simp [Finset.mem_filter, isUnder_append]
    · simp [Finset.mem_filter, isUnder_refl]
  · have hactC : ({ st with
        fs := st.fs ∪ ((st.file_helper.get_project_data_directory (get_clean_project_name name)) ::
          (st.file_helper.dirs_basic.map
            (fun d => st.file_helper.get_project_data_directory (get_clean_project_name name) ++ [d]) ++
           [st.file_helper.get_project_logs_directory (get_clean_project_name name)])).toFinset,
        registry := st.registry ++ [row] } : MState).active = some p0 := hact
    have hdel := delete_project_nodir_eq
      ({ st with
        fs := st.fs ∪ ((st.file_helper.get_project_data_directory (get_clean_project_name name)) ::
          (st.file_helper.dirs_basic.map
            (fun d => st.file_helper.get_project_data_directory (get_clean_project_name name) ++ [d]) ++
           [st.file_helper.get_project_logs_directory (get_clean_project_name name)])).toFinset,
        registry := st.registry ++ [row] }) name p0 hactC hexists1
    rw [hdel]
    refine ⟨?_, ?_, ?_, ?_⟩
    · simpa using DatabaseHelper.project_exists_delete_self (st.registry ++ [row])
        (get_clean_project_name name)
    · simp [hdb]
    · intro d hd
      simp only [Finset.mem_union, List.mem_toFinset, List.mem_cons, List.mem_append,
        List.mem_map, List.mem_singleton, hdb]
      exact Or.inr (Or.inr (Or.inl ⟨d, hd, rfl⟩))
    · simp [hdb]

/-! ### Claim C8 -/

/-- Claim C8, confirmed: a successful `copy_project` of the active project
to a new name yields a record named with the slug of the new name whose
attributes equal the source row's attributes, and that record is found in
the resulting registry; when a project with the new name already exists,
`copy_project` raises `ProjectExistsError` and leaves the state (registry
included) unchanged. -/
theorem c8_copy_project :
    (∀ (st : MState) (new_name : Str) (deok switch : Bool) (act srcRow : Project)
        (st' : MState) (r : Project),
      st.active = some act →
      DatabaseHelper.get_project st.registry act.name = some srcRow →
      ProjectsManager.copy_project st new_name deok switch = (st', none, some r) →
      r.name = get_clean_project_name new_name ∧
      r.attributes = srcRow.attributes ∧
      DatabaseHelper.get_project st'.registry (get_clean_project_name new_name) = some r) ∧
    (∀ (st : MState) (new_name : Str) (deok switch : Bool),
      DatabaseHelper.project_exists st.registry (get_clean_project_name new_name) = true →
      ProjectsManager.copy_project st new_name deok switch =
        (st, some .projectExistsError, none)) := by
  have hkey : ∀ n : Str, get_clean_project_name (get_clean_project_name n) =
      get_clean_project_name n := fun n => slugify_idem n
  constructor
  · intro st new_name deok switch act srcRow st' r hact hget h
    by_cases hex : DatabaseHelper.project_exists st.registry
        (get_clean_project_name new_name) = true
    · simp [ProjectsManager.copy_project, hex] at h
    · have hex0 := bool_eq_false_of_ne_true hex
      rcases hdir : st.file_helper.copy_project_directory st.fs act.name
          (get_clean_project_name new_name) deok with ⟨fs', e2, dp, lp⟩
      cases e2 with
      | some err =>
        simp [ProjectsManager.copy_project, hex0, hact, hdir] at h
      | none =>
        have hgetrow : DatabaseHelper.get_project
            (st.registry ++ [⟨get_clean_project_name new_name, dp, lp, srcRow.attributes⟩])
            (get_clean_project_name new_name) =
            some ⟨get_clean_project_name new_name, dp, lp, srcRow.attributes⟩ :=
          DatabaseHelper.get_project_append_of_not_exists hex0
        cases switch with
        | false =>
          simp [ProjectsManager.copy_project, hex0, hact, hdir, hget,
            DatabaseHelper.create_project] at h
          obtain ⟨hst', rfl⟩ := h
          refine ⟨rfl, rfl, ?_⟩
          rw [← hst']
          simpa using hgetrow
        | true =>
          simp [ProjectsManager.copy_project, ProjectsManager.activate_project, hex0,
            hact, hdir, hget, DatabaseHelper.create_project, hkey, hgetrow] at h
          obtain ⟨hst', rfl⟩ := h
          refine ⟨rfl, rfl, ?_⟩
          rw [← hst']
          simpa using hgetrow
  · intro st new_name deok switch hex
    simp [ProjectsManager.copy_project, hex]

/-! ### bw_projects / brightway_projects: `ProjectManager` (project.py)

The second manager class of the repository.  Its registry rows
(`ProjectDataset`) hold only `name` and `attributes`; directory segments are
recomputed with `slugify` (`safe_filename` in the brightway_projects
variant, with identical control flow).  Python truthiness of the empty
string is modelled explicitly where the source relies on it
(`name or self.current`, `if self.current`). -/

/-- A `ProjectDataset` row (src/bw_projects/project.py lines 15-17). -/
structure PDRow where
  name : Str
  attributes : Attrs
deriving DecidableEq, Repr

/-- The state of a `ProjectManager` instance: the `ProjectDataset` table,
the filesystem, the two base directories and `_project_name`. -/
structure PMState where
  registry : List PDRow
  fs : Finset FsPath
  base_data_dir : FsPath
  base_logs_dir : FsPath
  projectName : Option Str
deriving DecidableEq

namespace ProjectManager

/-- The `dir` property (project.py lines 100-104): the slugified current
name under the base data directory; raises `NoActiveProjectError` when no
project is active (`if self.current:` is also false for the empty string). -/
def dir (st : PMState) : Except PyErr FsPath :=
  match st.projectName with
  | some n => if n = [] then .error .noActiveProject
              else .ok (st.base_data_dir ++ [slugify n])
  | none => .error .noActiveProject

/-- The `logs_dir` property (project.py lines 106-111). -/
def logs_dir (st : PMState) : Except PyErr FsPath :=
  match st.projectName with
  | some n => if n = [] then .error .noActiveProject
              else .ok (st.base_logs_dir ++ [slugify n])
  | none => .error .noActiveProject

/-- `ProjectManager.create_project` (project.py lines 129-139): resolve
`name or self.current`; get-or-create the row; then `os.makedirs` the
*current* project's directory, its basic subdirectories and logs directory
(`self.dir` uses `self.current`, not `name`), with `exist_ok=True`.  A
`None` resolved name would create a row violating the `NOT NULL` name
column (`IntegrityError`). -/
def create_project (st : PMState) (name : Option Str) (attributes : Attrs) :
    PMState × Option PyErr :=
  match (match name with
         | some n => if n = [] then st.projectName else some n
         | none => st.projectName) with
  | none => (st, some .integrityError)
  | some n =>
    let registry' := if st.registry.any (fun r => decide (r.name = n))
                     then st.registry else st.registry ++ [(⟨n, attributes⟩ : PDRow)]
    let st1 : PMState := { st with registry := registry' }
    match dir st1 with
    | .error e => (st1, some e)
    | .ok d =>
      let fs1 := insert d st1.fs
      let fs2 := DIRS_BASIC.foldl (fun fs b => insert (d ++ [b]) fs) fs1
      match logs_dir st1 with
      | .error e => ({ st1 with fs := fs2 }, some e)
      | .ok ld => ({ st1 with fs := insert ld fs2 }, none)

/-- `ProjectManager.set_current` (project.py lines 91-96): set
`_project_name`, then `create_project(name, **kwargs)`. -/
def set_current (st : PMState) (name : Str) (attributes : Attrs) :
    PMState × Option PyErr :=
  create_project { st with projectName := some name } (some name) attributes

/-- `ProjectManager.delete_project` (project.py lines 152-185, line-identical
pointer logic in src/brightway_projects/project.py lines 226-255): raises
`NoActiveProjectError` when no project is active; resolves the victim as
`name or self.current`; raises `ValueError` for an unknown victim; deletes
the row; with `delete_dir`, asserts the directory exists and removes it;
when the victim was named implicitly or equals the current project,
re-elects `next(iter(self))` via `set_current`, or clears the pointer when
the registry became empty.  Returns `self.current`. -/
def delete_project (st : PMState) (name : Option Str) (delete_dir : Bool) :
    PMState × Option PyErr × Option (Option Str) :=
  match st.projectName with
  | none => (st, some .noActiveProject, none)
  | some cur =>
    let victim : Str := match name with
      | some n => if n = [] then cur else n
      | none => cur
    if st.registry.any (fun r => decide (r.name = victim)) then
      let registry' := st.registry.filter (fun r => !decide (r.name = victim))
      let st1 : PMState := { st with registry := registry' }
      match (if delete_dir then
               (if (st.base_data_dir ++ [slugify victim]) ∈ st1.fs then
                  Except.ok (st1.fs.filter
                    (fun q => isUnder q (st.base_data_dir ++ [slugify victim]) = false))
                else Except.error PyErr.assertionError)
             else Except.ok st1.fs) with
      | .error e => (st1, some e, none)
      | .ok fs' =>
        let st2 : PMState := { st1 with fs := fs' }
        if (match name with | none => true | some n => decide (n = cur)) then
          match st2.registry.head? with
          | some r =>
            match set_current st2 r.name [] with
            | (st3, none) => (st3, none, some st3.projectName)
            | (st3, some e) => (st3, some e, none)
          | none =>
            ({ st2 with projectName := none }, none, some none)
        else (st2, none, some st2.projectName)
    else (st, some .valueError, none)

/-- `ProjectManager.purge_deleted_directories` (src/bw_projects/project.py
lines 187-201, src/brightway_projects/project.py lines 257-271): collect the
slugified registered names; list the immediate subdirectories of the base
data directory (`bad_directories`, the orphans); `shutil.rmtree` each of
them; return `len(bad_directories)`.  The loop of `rmtree` calls over the
orphan list removes exactly the paths lying under some orphan directory
(the removed trees are disjoint), modelled as a single filter; the count is
the number of orphan names. -/
def purge_deleted_directories (st : PMState) : PMState × Nat :=
  let registered : List Str := st.registry.map (fun r => slugify r.name)
  let names : Finset Str := (st.fs.filter
      (fun p => p.length = st.base_data_dir.length + 1 ∧
        isUnder p st.base_data_dir = true)).image (fun p => p.getLastD [])
  let bad : Finset Str := names.filter (fun d => d ∉ registered)
  let fs' := st.fs.filter
    (fun q => decide (∀ d ∈ bad, isUnder q (st.base_data_dir ++ [d]) = false))
  ({ st with fs := fs' }, bad.card)

end ProjectManager

/-! ### ProjectManager lemmas -/

theorem pm_create_project_projectName (st : PMState) (name : Option Str)
    (attributes : Attrs) :
    (ProjectManager.create_project st name attributes).1.projectName = st.projectName := by
  rcases hn : (match name with
      | some n => if n = [] then st.projectName else some n
      | none => st.projectName) with _ | n
  · simp only [ProjectManager.create_project, hn]
  · simp only [ProjectManager.create_project, hn]
    split
    · rfl
    · split
      · rfl
      · rfl

theorem pm_delete_reelect (st : PMState) (name : Option Str) (cur : Str)
    (hcur : st.projectName = some cur)
    (hvic : st.registry.any (fun r => decide (r.name = cur)) = true)
    (hname : name = none ∨ name = some cur) :
    (ProjectManager.delete_project st name false).1.projectName =
      ((st.registry.filter (fun r => !decide (r.name = cur))).head?).map
        (fun r => r.name) := by
  have main : ∀ (nm : Option Str),
      (match nm with | some n => if n = [] then cur else n | none => cur) = cur →
      (match nm with | none => true | some n => decide (n = cur)) = true →
      (ProjectManager.delete_project st nm false).1.projectName =
        ((st.registry.filter (fun r => !decide (r.name = cur))).head?).map
          (fun r => r.name) := by
    intro nm hvictim hcond
    simp only [ProjectManager.delete_project, hcur, hvictim, hvic, hcond, if_true,
      Bool.false_eq_true, if_false]
    rcases hh : (st.registry.filter (fun r => !decide (r.name = cur))).head? with _ | r
    · simp [hh]
    · simp only [hh, ProjectManager.set_current]
      rcases hsc : ProjectManager.create_project
          { registry := List.filter (fun r => !decide (r.name = cur)) st.registry,
            fs := st.fs, base_data_dir := st.base_data_dir,
            base_logs_dir := st.base_logs_dir,
            projectName := some r.name } (some r.name) [] with ⟨st3, e3⟩
      have hpn := pm_create_project_projectName
        { registry := List.filter (fun r => !decide (r.name = cur)) st.registry,
          fs := st.fs, base_data_dir := st.base_data_dir,
          base_logs_dir := st.base_logs_dir,
          projectName := some r.name } (some r.name) []
      rw [hsc] at hpn
      rcases e3 with _ | e
      · simpa using hpn
      · simpa using hpn
  rcases hname with h | h <;> subst h
  · exact main none rfl rfl
  · refine main (some cur) ?_ ?_
    · by_cases hc : cur = []
      · simp [hc]
      · simp [hc]
    · simp

/-! ### Claim C2 -/

/-- Claim C2, amended.  For `ProjectsManager` (core.py): deleting the
active project (successfully) clears the active pointer; deleting a project
that is not the active one leaves the pointer unchanged in every outcome;
a successful `copy_project` with `switch=True` points the pointer at the
newly created record (named with the slug of the new name), and with
`switch=False` the pointer is unchanged.  For `ProjectManager` (project.py),
the part the original claim gets wrong: deleting the active project
re-elects the first remaining registry row as current, and the pointer
becomes `none` only when the registry became empty. -/
theorem c2_pointer :
    (∀ (st : MState) (name : Str) (neok ddir : Bool) (p : Project) (st' : MState),
      st.active = some p → p.name = get_clean_project_name name →
      DatabaseHelper.project_exists st.registry (get_clean_project_name name) = true →
      ProjectsManager.delete_project st name neok ddir = (st', none) →
      st'.active = none) ∧
    (∀ (st : MState) (name : Str) (neok ddir : Bool),
      (∀ p, st.active = some p → p.name ≠ get_clean_project_name name) →
      (ProjectsManager.delete_project st name neok ddir).1.active = st.active) ∧
    (∀ (st : MState) (new_name : Str) (deok : Bool) (st' : MState) (r : Option Project),
      ProjectsManager.copy_project st new_name deok true = (st', none, r) →
      ∃ q, st'.active = some q ∧ q.name = get_clean_project_name new_name) ∧
    (∀ (st : MState) (new_name : Str) (deok : Bool),
      (ProjectsManager.copy_project st new_name deok false).1.active = st.active) ∧
    (∀ (st : PMState) (name : Option Str) (cur : Str),
      st.projectName = some cur →
      st.registry.any (fun r => decide (r.name = cur)) = true →
      (name = none ∨ name = some cur) →
      (ProjectManager.delete_project st name false).1.projectName =
        ((st.registry.filter (fun r => !decide (r.name = cur))).head?).map
          (fun r => r.name)) := by
  have hkey : ∀ n : Str, get_clean_project_name (get_clean_project_name n) =
      get_clean_project_name n := fun n => slugify_idem n
  refine ⟨?_, ?_, ?_, ?_, ?_⟩
  · intro st name neok ddir p st' hact hpname hex h
    rcases hdd : (if ddir then
        st.file_helper.delete_project_directory st.fs (get_clean_project_name name)
      else (st.fs, none)) with ⟨fs', e2⟩
    cases e2 with
    | some e =>
      simp [ProjectsManager.delete_project, hex, hdd] at h
    | none =>
      simp [ProjectsManager.delete_project, hex, hdd, hact, hpname] at h
      rw [← h]
  · intro st name neok ddir hne
    by_cases hex : DatabaseHelper.project_exists st.registry
        (get_clean_project_name name) = true
    · rcases hdd : (if ddir then
        st.file_helper.delete_project_directory st.fs (get_clean_project_name name)
      else (st.fs, none)) with ⟨fs', e2⟩
      cases e2 with
      | some e =>
        simp [ProjectsManager.delete_project, hex, hdd]
      | none =>
        rcases hact : st.active with _ | p
        · simp [ProjectsManager.delete_project, hex, hdd, hact]
        · have hp := hne p hact
          simp [ProjectsManager.delete_project, hex, hdd, hact, hp]
    · have hex0 := bool_eq_false_of_ne_true hex
      cases neok with
      | false => simp [ProjectsManager.delete_project, hex0]
      | true => simp [ProjectsManager.delete_project, hex0]
  · intro st new_name deok st' r h
    by_cases hex : DatabaseHelper.project_exists st.registry
        (get_clean_project_name new_name) = true
    · simp [ProjectsManager.copy_project, hex] at h
    · have hex0 := bool_eq_false_of_ne_true hex
      rcases hact : st.active with _ | act
      · simp [ProjectsManager.copy_project, hex0, hact] at h
      · rcases hdir : st.file_helper.copy_project_directory st.fs act.name
            (get_clean_project_name new_name) deok with ⟨fs', e2, dp, lp⟩
        cases e2 with
        | some err =>
          simp [ProjectsManager.copy_project, hex0, hact, hdir] at h
        | none =>
          rcases hget : DatabaseHelper.get_project st.registry act.name with _ | srcRow
          · simp [ProjectsManager.copy_project, hex0, hact, hdir, hget] at h
          · have hgetrow : DatabaseHelper.get_project
                (st.registry ++ [⟨get_clean_project_name new_name, dp, lp,
                  srcRow.attributes⟩]) (get_clean_project_name new_name) =
                some ⟨get_clean_project_name new_name, dp, lp, srcRow.attributes⟩ :=
              DatabaseHelper.get_project_append_of_not_exists hex0
            simp [ProjectsManager.copy_project, ProjectsManager.activate_project, hex0,
              hact, hdir, hget, DatabaseHelper.create_project, hkey, hgetrow] at h
            refine ⟨⟨get_clean_project_name new_name, dp, lp, srcRow.attributes⟩, ?_, rfl⟩
            rw [← h.1]
  · intro st new_name deok
    by_cases hex : DatabaseHelper.project_exists st.registry
        (get_clean_project_name new_name) = true
    · simp [ProjectsManager.copy_project, hex]
    · have hex0 := bool_eq_false_of_ne_true hex
      rcases hact : st.active with _ | act
      · simp [ProjectsManager.copy_project, hex0, hact]
      · rcases hdir : st.file_helper.copy_project_directory st.fs act.name
            (get_clean_project_name new_name) deok with ⟨fs', e2, dp, lp⟩
        cases e2 with
        | some err =>
          simp [ProjectsManager.copy_project, hex0, hact, hdir]
        | none =>
          rcases hget : DatabaseHelper.get_project st.registry act.name with _ | srcRow
          · simp [ProjectsManager.copy_project, hex0, hact, hdir, hget]
          · simp [ProjectsManager.copy_project, hex0, hact, hdir, hget,
              DatabaseHelper.create_project, hact]
  · intro st name cur hcur hvic hname
    exact pm_delete_reelect st name cur hcur hvic hname

/-! ### Claim C7 -/

theorem mem_child_names (fs : Finset FsPath) (base : FsPath) (d : Str) :
    (d ∈ (fs.filter (fun p => p.length = base.length + 1 ∧ isUnder p base = true)).image
      (fun p => p.getLastD [])) ↔ (base ++ [d]) ∈ fs := by
  constructor
  · intro h
    rw [Finset.mem_image] at h
    obtain ⟨p, hp, hlast⟩ := h
    rw [Finset.mem_filter] at hp
    obtain ⟨hpfs, hlen, hund⟩ := hp
    obtain ⟨s, hs⟩ := isUnder_iff.mp hund
    subst hs
    have hslen : s.length = 1 := by
      rw [List.length_append] at hlen
      omega
    obtain ⟨x, hx⟩ := List.length_eq_one.mp hslen
    subst hx
    rw [List.getLastD_concat] at hlast
    exact hlast ▸ hpfs
  · intro h
    rw [Finset.mem_image]
    refine ⟨base ++ [d], ?_, ?_⟩
    · rw [Finset.mem_filter]
      exact ⟨h, by simp, isUnder_append base [d]⟩
    · exact List.getLastD_concat _ _ _

/-- Claim C7, confirmed: `purge_deleted_directories` returns the number of
immediate subdirectories of the base data directory whose names are not
registered segments; it keeps every path lying under a registered project
directory, removes every orphan immediate subdirectory, and anything it
removed lay under some orphan immediate subdirectory. -/
theorem c7_purge_orphans (st : PMState) :
    (ProjectManager.purge_deleted_directories st).2 =
      (((st.fs.filter (fun p => p.length = st.base_data_dir.length + 1 ∧
          isUnder p st.base_data_dir = true)).image (fun p => p.getLastD [])).filter
        (fun d => d ∉ st.registry.map (fun r => slugify r.name))).card ∧
    (∀ d q, d ∈ st.registry.map (fun r => slugify r.name) → q ∈ st.fs →
      isUnder q (st.base_data_dir ++ [d]) = true →
      q ∈ (ProjectManager.purge_deleted_directories st).1.fs) ∧
    (∀ d, (st.base_data_dir ++ [d]) ∈ st.fs →
      d ∉ st.registry.map (fun r => slugify r.name) →
      (st.base_data_dir ++ [d]) ∉ (ProjectManager.purge_deleted_directories st).1.fs) ∧
    (∀ q ∈ st.fs, q ∉ (ProjectManager.purge_deleted_directories st).1.fs →
      ∃ d, d ∉ st.registry.map (fun r => slugify r.name) ∧
        (st.base_data_dir ++ [d]) ∈ st.fs ∧ isUnder q (st.base_data_dir ++ [d]) = true) := by
  refine ⟨rfl, ?_, ?_, ?_⟩
  · intro d q hd hq hund
    simp only [ProjectManager.purge_deleted_directories, Finset.mem_filter]
    refine ⟨hq, ?_⟩
    rw [decide_eq_true_iff]
    intro b hb
    rw [Finset.mem_filter] at hb
    by_contra hbt
    have hbt' : isUnder q (st.base_data_dir ++ [b]) = true := by
      cases hbool : isUnder q (st.base_data_dir ++ [b])
      · exact absurd hbool hbt
      · rfl
    have : b = d := isUnder_child_inj hbt' hund
    exact hb.2 (this ▸ hd)
  · intro d hmem hreg hcontra
    simp only [ProjectManager.purge_deleted_directories, Finset.mem_filter] at hcontra
    have hdec := of_decide_eq_true hcontra.2
    have hdmem : d ∈ ((st.fs.filter (fun p => p.length = st.base_data_dir.length + 1 ∧
        isUnder p st.base_data_dir = true)).image (fun p => p.getLastD [])).filter
        (fun b => b ∉ st.registry.map (fun r => slugify r.name)) := by
      rw [Finset.mem_filter]
      exact ⟨(mem_child_names st.fs st.base_data_dir d).mpr hmem, hreg⟩
    have := hdec d hdmem
    rw [isUnder_refl] at this
    exact absurd this (by decide)
  · intro q hq hnot
    simp only [ProjectManager.purge_deleted_directories, Finset.mem_filter] at hnot
    have h2 := (not_and.mp hnot) hq
    rw [decide_eq_true_iff] at h2
    push_neg at h2
    obtain ⟨b, hb, hbt⟩ := h2
    rw [Finset.mem_filter] at hb
    refine ⟨b, hb.2, (mem_child_names st.fs st.base_data_dir b).mp hb.1, ?_⟩
    cases hbool : isUnder q (st.base_data_dir ++ [b])
    · exact absurd hbool hbt
    · rfl

/-! ### Claim C9: the configuration surface -/

/-- The literal `"logs"` subdirectory name. -/
def LOGS_SEG : Str := ['l', 'o', 'g', 's']

/-- `ProjectManager._get_base_directories` (src/bw_projects/project.py lines
68-81; same selection logic in src/brightway_projects/project.py lines
85-106, which additionally absolutises the path): an explicit `folder`
argument wins; otherwise the `BRIGHTWAY_DIR` environment variable; otherwise
the platform-specific `appdirs` defaults, passed here as parameters.
Directory-creation side effects are omitted (only the selection is
modelled); Python truthiness of empty values is folded into `none`. -/
def get_base_directories (default_data default_logs : FsPath)
    (env folder : Option FsPath) : FsPath × FsPath :=
  match folder with
  | some f => (f, f ++ [LOGS_SEG])
  | none =>
    match env with
    | some e => (e, e ++ [LOGS_SEG])
    | none => (default_data, default_logs)

/-- The `Configuration` object (src/bw_projects/config.py): its constructor
sets exactly the attributes `dir_base`, `dir_logs`, `dir_relative_logs`,
`output_dir` and `dirs_basic`. -/
structure Configuration where
  dir_base : FsPath
  dir_logs : FsPath
  dir_relative_logs : Str
  output_dir : FsPath
  dirs_basic : List Str
deriving DecidableEq, Repr

/-- `FileHelper.__init__` (src/bw_projects/helpers.py lines 70-96): each of
the three directories is taken from the explicit argument when given; when
an argument is `None` the code reads `config.dir_base_data`,
`config.dir_base_logs` or `config.dir_output` — attributes that
`Configuration` does not define (config.py defines `dir_base`, `dir_logs`
and `output_dir` instead) — so the fallback raises `AttributeError`.  The
environment is never consulted.  The `mkdir` side effects of a successful
construction are omitted (only directory selection is modelled). -/
def fileHelperInit (dir_base_data dir_base_logs output_dir_name : Option FsPath)
    (config : Configuration) : Except PyErr (FsPath × FsPath × FsPath) :=
  match dir_base_data with
  | none => .error .attributeError
  | some d =>
    match dir_base_logs with
    | none => .error .attributeError
    | some l =>
      match output_dir_name with
      | none => .error .attributeError
      | some o => .ok (d, l, o)

/-- A concrete `Configuration` value used in counterexamples. -/
def cfg0 : Configuration :=
  ⟨[['b']], [['g']], LOGS_SEG, [['h']], DIRS_BASIC⟩

/-- Claim C9, counterexample.  With no explicit constructor arguments,
`FileHelper.__init__` does not fall back to the environment or to the
platform default: it raises `AttributeError`, because it reads
`config.dir_base_data` / `config.dir_base_logs` / `config.dir_output` while
`Configuration` defines `dir_base` / `dir_logs` / `output_dir`.  (The
environment is not even a parameter of the construction: `FileHelper`
never consults it.) -/
theorem c9_fileHelper_counterexample :
    fileHelperInit none none none cfg0 = .error .attributeError := rfl

/-- Claim C9, amended.  For the base directories resolved by
`ProjectManager._get_base_directories`: an explicit folder argument
determines data and logs directories regardless of the environment; with no
explicit argument the `BRIGHTWAY_DIR` environment value determines them;
only when neither is given are the platform-specific defaults used.
`FileHelper` (bw_projects) never consults the environment: an explicit
argument determines each of its three directories regardless of environment
and configuration, and when any argument is omitted construction fails with
`AttributeError` (broken `Configuration` attribute names) instead of using
a default. -/
theorem c9_directory_resolution :
    (∀ (dd dl : FsPath) (env : Option FsPath) (f : FsPath),
      get_base_directories dd dl env (some f) = (f, f ++ [LOGS_SEG])) ∧
    (∀ (dd dl e : FsPath),
      get_base_directories dd dl (some e) none = (e, e ++ [LOGS_SEG])) ∧
    (∀ (dd dl : FsPath),
      get_base_directories dd dl none none = (dd, dl)) ∧
    (∀ (d l o : FsPath) (cfg : Configuration),
      fileHelperInit (some d) (some l) (some o) cfg = .ok (d, l, o)) ∧
    (∀ (l o : Option FsPath) (cfg : Configuration),
      fileHelperInit none l o cfg = .error .attributeError) ∧
    (∀ (d : FsPath) (o : Option FsPath) (cfg : Configuration),
      fileHelperInit (some d) none o cfg = .error .attributeError) ∧
    (∀ (d l : FsPath) (cfg : Configuration),
      fileHelperInit (some d) (some l) none cfg = .error .attributeError) :=
  ⟨fun _ _ _ _ => rfl, fun _ _ _ => rfl, fun _ _ => rfl, fun _ _ _ _ => rfl,
   fun _ _ _ => rfl, fun _ _ _ => rfl, fun _ _ _ => rfl⟩

/-! ### Claim C10 -/

/-- Claim C10, amended.  With no active project: `ProjectsManager` (core.py)
`delete_project` raises for every name present in the registry (after
removing the row, `self._active_project.name` raises `AttributeError`), but
a call on an absent name with `not_exist_ok=True` returns normally with the
state unchanged; `ProjectManager.delete_project` (project.py) raises
`NoActiveProjectError` for every name. -/
theorem c10_delete_requires_active :
    (∀ (st : MState) (name : Str) (neok ddir : Bool),
      st.active = none →
      DatabaseHelper.project_exists st.registry (get_clean_project_name name) = true →
      ((ProjectsManager.delete_project st name neok ddir).2).isSome = true) ∧
    (∀ (st : MState) (name : Str) (ddir : Bool),
      st.active = none →
      DatabaseHelper.project_exists st.registry (get_clean_project_name name) = false →
      ProjectsManager.delete_project st name true ddir = (st, none)) ∧
    (∀ (st : PMState) (name : Option Str) (ddir : Bool),
      st.projectName = none →
      ProjectManager.delete_project st name ddir = (st, some .noActiveProject, none)) := by
  refine ⟨?_, ?_, ?_⟩
  · intro st name neok ddir hact hex
    rcases hdd : (if ddir then
        st.file_helper.delete_project_directory st.fs (get_clean_project_name name)
      else (st.fs, none)) with ⟨fs', e2⟩
    cases e2 with
    | some e =>
      simp [ProjectsManager.delete_project, hex, hdd]
    | none =>
      simp [ProjectsManager.delete_project, hex, hdd, hact]
  · intro st name ddir hact hex
    simp [ProjectsManager.delete_project, hex]
  · intro st name ddir h
    simp [ProjectManager.delete_project, h]

/-! ### Witness fixtures -/

/-- A concrete `FileHelper` with one-segment base directories. -/
def fhW : FileHelper := ⟨[['d']], [['l']], DIRS_BASIC⟩

def rowFoo : Project :=
  ⟨['f', 'o', 'o'], [['d'], ['f', 'o', 'o']], [['l'], ['f', 'o', 'o']], []⟩

def rowBar : Project :=
  ⟨['b', 'a', 'r'], [['d'], ['b', 'a', 'r']], [['l'], ['b', 'a', 'r']], [(['x'], ['y'])]⟩

def stEmptyM : MState := ⟨fhW, [], ∅, none⟩

def stFoo : MState := ⟨fhW, [rowFoo], ∅, some rowFoo⟩

def stFooNoActive : MState := ⟨fhW, [rowFoo], ∅, none⟩

def stW5 : MState := ⟨fhW, [rowBar], ∅, some rowBar⟩

def pdRowA : PDRow := ⟨['a'], []⟩

def pdRowB : PDRow := ⟨['b'], []⟩

def stPM2 : PMState := ⟨[pdRowA, pdRowB], ∅, [['d']], [['l']], some ['a']⟩

def stPM7 : PMState := ⟨[pdRowA], {[['d'], ['a']], [['d'], ['x']]}, [['d']], [['l']], none⟩

/-- Claim C2, counterexample.  In `ProjectManager.delete_project`
(project.py), deleting the active project `"a"` from a registry also
containing `"b"` leaves the active pointer at `"b"`, not `none`: the code
re-elects `next(iter(self))` instead of clearing the pointer. -/
theorem c2_counterexample :
    (ProjectManager.delete_project stPM2 (some ['a']) false).1.projectName = some ['b'] ∧
    (some (['b'] : Str) : Option Str) ≠ none := by
  constructor
  · decide
  · decide

/-- Claim C10, counterexample.  With no active project,
`ProjectsManager.delete_project` (core.py) on a name absent from the
registry with `not_exist_ok=True` returns normally (no exception, state
unchanged), so the claim that the call never completes successfully for
every name is false. -/
theorem c10_counterexample :
    ProjectsManager.delete_project stEmptyM ['f', 'o', 'o'] true false = (stEmptyM, none) ∧
    stEmptyM.active = none := by
  constructor
  · decide
  · rfl

def fs8 : Finset FsPath := {[['d'], ['b', 'a', 'r']], [['l'], ['b', 'a', 'r']]}

def stW8 : MState := ⟨fhW, [rowBar], fs8, some rowBar⟩

def rowFooCopy : Project :=
  ⟨['f', 'o', 'o'], [['d'], ['f', 'o', 'o']], [['l'], ['f', 'o', 'o']], [(['x'], ['y'])]⟩

def stW8' : MState := ⟨fhW, [rowBar, rowFooCopy],
  {[['d'], ['b', 'a', 'r']], [['l'], ['b', 'a', 'r']],
   [['d'], ['f', 'o', 'o']], [['l'], ['f', 'o', 'o']]}, some rowBar⟩

theorem c2_pointer_witness :
    ((⟨fhW, [], ∅, none⟩ : MState)).active = none :=
  c2_pointer.1 stFoo ['f', 'o', 'o'] false false rowFoo ⟨fhW, [], ∅, none⟩
    rfl (by decide) (by decide) (by decide)

theorem c4_create_unique_witness :
    ProjectsManager.create_project stFoo ['f', 'o', 'o'] [] false false =
      (stFoo, some .projectExistsError, none) :=
  c4_create_unique.2.1 stFoo ['f', 'o', 'o'] [] false (by decide)

theorem c5_lifecycle_consistency_witness :
    (ProjectsManager.create_project stW5 ['f', 'o', 'o'] [] false false).2.1 = none ∧
    ([['d'], ['f', 'o', 'o']] : FsPath) ∈
      (ProjectsManager.create_project stW5 ['f', 'o', 'o'] [] false false).1.fs := by
  have h := c5_lifecycle_consistency stW5 ['f', 'o', 'o'] [] rowBar
    ['f', 'o', 'o'] [['d'], ['f', 'o', 'o']] [['l'], ['f', 'o', 'o']]
    (by decide) (by decide) (by decide) (by decide) rfl (by decide) (by decide) (by decide)
  exact ⟨h.1, h.2.2.1⟩

theorem c7_purge_orphans_witness :
    ([['d'], ['x']] : FsPath) ∉ (ProjectManager.purge_deleted_directories stPM7).1.fs :=
  (c7_purge_orphans stPM7).2.2.1 ['x'] (by decide) (by decide)

theorem c8_copy_project_witness :
    rowFooCopy.name = get_clean_project_name ['f', 'o', 'o'] ∧
    rowFooCopy.attributes = rowBar.attributes ∧
    DatabaseHelper.get_project stW8'.registry (get_clean_project_name ['f', 'o', 'o']) =
      some rowFooCopy :=
  c8_copy_project.1 stW8 ['f', 'o', 'o'] false false rowBar rowBar stW8' rowFooCopy
    rfl (by decide) (by decide)

theorem c10_delete_requires_active_witness :
    ((ProjectsManager.delete_project stFooNoActive ['f', 'o', 'o'] false false).2).isSome = true :=
  c10_delete_requires_active.1 stFooNoActive ['f', 'o', 'o'] false false rfl (by decide)
